import Mathlib

/-!
# WealthWatch financial simulation engine — verification of spec claims

Shallow embedding of the financial simulation engine of the `wealthwatch`
repository, translated from the TypeScript sources:

* `server/src/providers/IFinancialProvider.ts` — `calculatePayoff` (debt
  amortization simulator, avalanche/snowball strategies);
* `server/src/services/financialHealth.ts` — `calculateHealthScore`,
  `forecastCashFlow`;
* `server/src/routes/projections.ts` — the deterministic investment-growth
  projection and its Monte Carlo variant (`runSimulation`, `getPercentile`).

Modelling conventions:

* JavaScript numbers are modelled as exact rationals `ℚ` (the idealised real
  arithmetic the algorithms describe); `Math.round` is `⌊x + 1/2⌋` (JS rounds
  half toward +∞); `Math.round(x*100)/100` is `round2`.
* The `balances` record keyed by debt id is modelled as a list of
  `DebtInput × ℚ` pairs in sorted order; this coincides with the source's
  `Record<string, number>` whenever debt ids are distinct (which the theorems
  about id-keyed behaviour assume explicitly).
* `Array.prototype.sort` (stable since ES2019) is modelled by a stable
  insertion sort with the source's comparator.
* `Math.random()` and the calendar (`new Date()` arithmetic) are modelled as
  explicit parameters: a stream `ℕ → ℚ` of draws, and a map `ℕ → ℕ` giving the
  day-of-month of the `d`-th forecast day.
-/

namespace WealthWatch

/-- JavaScript `Math.round`: rounds half toward positive infinity. -/
def jsRound (x : ℚ) : ℤ := ⌊x + 1/2⌋

/-- `Math.round(x * 100) / 100` — rounding to cents as done by the engine. -/
def round2 (x : ℚ) : ℚ := (jsRound (x * 100) : ℚ) / 100

/-- One step of a stable insertion sort: the new element `x` is placed after
every existing element `y` with `le y x`, so elements comparing equal keep
their original relative order — the behaviour of JavaScript's stable
`Array.prototype.sort`. -/
def insertBy {α : Type} (le : α → α → Bool) (x : α) : List α → List α
  | [] => [x]
  | y :: ys => if le y x then y :: insertBy le x ys else x :: y :: ys

/-- Stable sort modelling `Array.prototype.sort` with a numeric comparator
`cmp`; `le a b` stands for `cmp(a, b) ≤ 0` ("`a` may stay before `b`"). -/
def sortBy {α : Type} (le : α → α → Bool) (xs : List α) : List α :=
  xs.foldl (fun acc x => insertBy le x acc) []

namespace DebtPayoff

/-- `DebtInput` from `IFinancialProvider.ts`. -/
structure DebtInput where
  id : String
  name : String
  balance : ℚ
  rate : ℚ
  minimum : ℚ
deriving DecidableEq, Repr

/-- The two payoff strategies. -/
inductive Strategy
  | avalanche
  | snowball
deriving DecidableEq, Repr

/-- One element of `PayoffMonth['debts']`.  Its `balance` field holds the
end-of-month balance: the source mutates `entry.balance` to the post-payment
balance before pushing the month onto the schedule. -/
structure MonthEntry where
  id : String
  name : String
  balance : ℚ
  payment : ℚ
  interest : ℚ
  principal : ℚ
deriving DecidableEq, Repr

/-- `PayoffMonth` from `IFinancialProvider.ts`. -/
structure PayoffMonth where
  month : ℕ
  debts : List MonthEntry
  totalBalance : ℚ
  totalPayment : ℚ
  totalInterest : ℚ
deriving DecidableEq, Repr

/-- One element of `PayoffResult['debtPayoffOrder']`. -/
structure PayoffEntry where
  id : String
  name : String
  payoffMonth : ℕ
deriving DecidableEq, Repr

/-- `PayoffResult` from `IFinancialProvider.ts`. -/
structure PayoffResult where
  strategy : Strategy
  months : ℕ
  totalPaid : ℚ
  totalInterest : ℚ
  schedule : List PayoffMonth
  debtPayoffOrder : List PayoffEntry
deriving DecidableEq, Repr

/-- The initial sort: avalanche = highest rate first, snowball = lowest
balance first (comparator `b.rate - a.rate` resp. `a.balance - b.balance`). -/
def sortDebts (strategy : Strategy) (debts : List DebtInput) : List DebtInput :=
  sortBy
    (fun a b =>
      match strategy with
      | .avalanche => decide (b.rate ≤ a.rate)
      | .snowball => decide (a.balance ≤ b.balance))
    debts

/-- `freedMinimums`: the sum of minimum payments of debts already at ≤ 0.01
balance; it rolls into this month's extra budget. -/
def freedMinimums (st : List (DebtInput × ℚ)) : ℚ :=
  ((st.filter fun p => p.2 ≤ 1/100).map fun p => p.1.minimum).sum

/-- One simulated month over the working state (sorted debts paired with
working balances).  This fuses the source's three passes over `remaining` /
`sorted` / `monthDebts`, which is sound because each debt's first-pass figures
depend only on its own balance, and the second pass touches exactly the first
debt of the sorted order that still has balance > 0.01 (then `break`s, which
the recursion models by passing `0` as the remaining budget).  Returns the new
working state together with this month's `monthDebts` entries (one per debt
that was outstanding at the start of the month, in order). -/
def monthStep (extraBudget : ℚ) :
    List (DebtInput × ℚ) → List (DebtInput × ℚ) × List MonthEntry
  | [] => ([], [])
  | (d, bal) :: rest =>
    if bal ≤ 1/100 then
      -- not in `remaining`: untouched this month, no schedule entry
      let r := monthStep extraBudget rest
      ((d, bal) :: r.1, r.2)
    else
      let monthlyRate := d.rate / 100 / 12
      let interest := bal * monthlyRate
      let minPayment := min d.minimum (bal + interest)
      let maxExtra := min extraBudget (bal + interest - minPayment + 1/100)
      let pay := if 0 < extraBudget ∧ 0 < maxExtra then minPayment + maxExtra else minPayment
      let budgetLeft := if 0 < extraBudget then 0 else extraBudget
      let newBal := max 0 (bal + interest - pay)
      let r := monthStep budgetLeft rest
      ((d, newBal) :: r.1,
        ⟨d.id, d.name, newBal, pay, interest, pay - interest⟩ :: r.2)

/-- The third pass's payoff-order bookkeeping: walk this month's entries in
order and append `{id, name, payoffMonth}` for each debt whose end-of-month
balance is ≤ 0.01 and whose id is not in the accumulated order yet. -/
def newPayoffs (month : ℕ) (orderAcc : List PayoffEntry) :
    List MonthEntry → List PayoffEntry
  | [] => orderAcc
  | e :: es =>
    if e.balance ≤ 1/100 ∧ (orderAcc.find? fun p => p.id = e.id).isNone then
      newPayoffs month (orderAcc ++ [⟨e.id, e.name, month⟩]) es
    else
      newPayoffs month orderAcc es

/-- Result of the simulation loop, before the strategy tag is attached. -/
structure SimOut where
  months : ℕ
  totalPaid : ℚ
  totalInterest : ℚ
  schedule : List PayoffMonth
  order : List PayoffEntry
deriving DecidableEq, Repr

/-- The `while (month < maxMonths)` loop of `calculatePayoff`, with
`fuel = maxMonths - month` making the recursion structural. -/
def simGo (extraMonthly : ℚ) (fuel : ℕ) (month : ℕ) (st : List (DebtInput × ℚ))
    (schedAcc : List PayoffMonth) (orderAcc : List PayoffEntry)
    (tp ti : ℚ) : SimOut :=
  match fuel with
  | 0 => ⟨month, tp, ti, schedAcc, orderAcc⟩
  | fuel + 1 =>
    if (st.filter fun p => 1/100 < p.2).isEmpty then
      ⟨month, tp, ti, schedAcc, orderAcc⟩
    else
      let month' := month + 1
      let extraBudget := extraMonthly + freedMinimums st
      let r := monthStep extraBudget st
      let monthTotalPayment := (r.2.map MonthEntry.payment).sum
      let monthTotalInterest := (r.2.map MonthEntry.interest).sum
      let orderAcc' := newPayoffs month' orderAcc r.2
      let totalBalance := (r.1.map fun p => p.2).sum
      let schedAcc' := schedAcc ++ [⟨month', r.2, totalBalance, monthTotalPayment, monthTotalInterest⟩]
      simGo extraMonthly fuel month' r.1 schedAcc' orderAcc'
        (tp + monthTotalPayment) (ti + monthTotalInterest)

/-- `calculatePayoff` from `IFinancialProvider.ts`. -/
def calculatePayoff (debts : List DebtInput) (strategy : Strategy)
    (extraMonthly : ℚ) : PayoffResult :=
  let sorted := sortDebts strategy debts
  let st := sorted.map fun d => (d, d.balance)
  let o := simGo extraMonthly 360 0 st [] [] 0 0
  { strategy := strategy
    months := o.months
    totalPaid := o.totalPaid
    totalInterest := o.totalInterest
    schedule := o.schedule
    debtPayoffOrder := o.order }

/-- The preconditions the spec imposes on a debt list: `balance ≥ 0`,
`rate ∈ [0,100]`, `minimum ≥ 0`. -/
def ValidDebts (debts : List DebtInput) : Prop :=
  ∀ d ∈ debts, 0 ≤ d.balance ∧ 0 ≤ d.rate ∧ d.rate ≤ 100 ∧ 0 ≤ d.minimum

instance : DecidablePred ValidDebts := fun debts =>
  inferInstanceAs (Decidable (∀ d ∈ debts, _))

/-- Basic sign conditions on a working state: non-negative rates, minimum
payments and balances. -/
def StOK (st : List (DebtInput × ℚ)) : Prop :=
  ∀ p ∈ st, 0 ≤ p.1.rate ∧ 0 ≤ p.1.minimum ∧ 0 ≤ p.2

/-- Relation between the working states of two runs of the simulation: same
debt at each position, and the second run's balance is either at most the
first run's, or the debt is already paid off (≤ 0.01) in the second run. -/
def Dominates (p q : DebtInput × ℚ) : Prop :=
  p.1 = q.1 ∧ (q.2 ≤ p.2 ∨ q.2 ≤ 1/100)

/-- One month of working-state evolution, exactly the loop body's balance
update: the month's extra budget is `extraMonthly` plus the freed minimums of
the current state. -/
def stepState (extraMonthly : ℚ) (st : List (DebtInput × ℚ)) : List (DebtInput × ℚ) :=
  (monthStep (extraMonthly + freedMinimums st) st).1

/-- The working state after `m` months.  For months past the end of the run
this is constant, since `monthStep` leaves a fully paid-off state unchanged. -/
def stateAt (extraMonthly : ℚ) (st0 : List (DebtInput × ℚ)) : ℕ → List (DebtInput × ℚ)
  | 0 => st0
  | m + 1 => stepState extraMonthly (stateAt extraMonthly st0 m)

/-- The working balance of the debt with the given id (0 if absent), i.e. the
`balances[id]` lookup of the source. -/
def lookupBal (i : String) (st : List (DebtInput × ℚ)) : ℚ :=
  match st.find? fun p => p.1.id = i with
  | some p => p.2
  | none => 0

/-- The total payment an outstanding debt receives in one month, abbreviating
the first- and second-pass formulas of `monthStep`: `m` is the debt's minimum
payment, `x` its balance plus accrued interest, `eb` the available extra
budget.  Definitionally equal to the payment computed in `monthStep`. -/
def payAmount (m x eb : ℚ) : ℚ :=
  if 0 < eb ∧ 0 < min eb (x - min m x + 1/100) then
    min m x + min eb (x - min m x + 1/100)
  else
    min m x

end DebtPayoff

namespace FinancialHealth

/-- `HealthScoreInput` from `financialHealth.ts`. -/
structure HealthScoreInput where
  monthlyIncome : ℚ
  monthlyExpenses : ℚ
  totalDebt : ℚ
  totalAssets : ℚ
  totalInvestments : ℚ
  emergencyFundBalance : ℚ
  creditUtilization : ℚ
deriving DecidableEq, Repr

/-- One component of the health score: rounded score plus raw value.  The
human-readable `label` strings of the source (pure `toFixed` formatting of the
same `value`) are not modelled. -/
structure HealthComponent where
  score : ℚ
  value : ℚ
deriving DecidableEq, Repr

/-- The five components of `HealthScoreResult`. -/
structure HealthComponents where
  savingsRate : HealthComponent
  debtToIncome : HealthComponent
  emergencyFund : HealthComponent
  investmentRate : HealthComponent
  creditUtilization : HealthComponent
deriving DecidableEq, Repr

/-- `HealthScoreResult` from `financialHealth.ts` (numeric core; the
`recommendations` strings, pure formatting over the same threshold tests, are
not modelled). -/
structure HealthScoreResult where
  overallScore : ℤ
  grade : String
  components : HealthComponents
deriving DecidableEq, Repr

/-- `calculateHealthScore` from `financialHealth.ts`. -/
def calculateHealthScore (input : HealthScoreInput) : HealthScoreResult :=
  let savingsRate : ℚ :=
    if 0 < input.monthlyIncome then
      (input.monthlyIncome - input.monthlyExpenses) / input.monthlyIncome * 100
    else 0
  let savingsScore : ℚ := min 20 (max 0 savingsRate)
  let dti : ℚ :=
    if 0 < input.monthlyIncome then input.totalDebt / (input.monthlyIncome * 12) * 100
    else 100
  let dtiScore : ℚ :=
    if dti ≤ 0 then 20 else if dti ≤ 20 then 18 else if dti ≤ 36 then 14
    else if dti ≤ 50 then 8 else 2
  let emergencyMonths : ℚ :=
    if 0 < input.monthlyExpenses then input.emergencyFundBalance / input.monthlyExpenses
    else 0
  let emergencyScore : ℚ :=
    if 6 ≤ emergencyMonths then 20 else if 3 ≤ emergencyMonths then 14
    else if 1 ≤ emergencyMonths then 8 else 2
  let investmentRate : ℚ :=
    if 0 < input.monthlyIncome then
      input.totalInvestments / (input.monthlyIncome * 12) * 100
    else 0
  let investmentScore : ℚ :=
    min 20 (if 100 ≤ investmentRate then 20 else if 50 ≤ investmentRate then 16
      else if 25 ≤ investmentRate then 12 else if 10 ≤ investmentRate then 8 else 4)
  let utilizationScore : ℚ :=
    if input.creditUtilization ≤ 10 then 20 else if input.creditUtilization ≤ 30 then 16
    else if input.creditUtilization ≤ 50 then 10 else if input.creditUtilization ≤ 75 then 5
    else 1
  let overallScore : ℤ :=
    jsRound (savingsScore + dtiScore + emergencyScore + investmentScore + utilizationScore)
  let grade : String :=
    if 90 ≤ overallScore then "A" else if 80 ≤ overallScore then "B"
    else if 65 ≤ overallScore then "C" else if 50 ≤ overallScore then "D" else "F"
  { overallScore := overallScore
    grade := grade
    components :=
      { savingsRate := ⟨(jsRound savingsScore : ℚ), savingsRate⟩
        debtToIncome := ⟨dtiScore, dti⟩
        emergencyFund := ⟨emergencyScore, emergencyMonths⟩
        investmentRate := ⟨investmentScore, investmentRate⟩
        creditUtilization := ⟨utilizationScore, input.creditUtilization⟩ } }

/-- `RecurringFlow`: one recurring income or expense pattern. -/
structure RecurringFlow where
  amount : ℚ
  dayOfMonth : ℕ
  description : String
deriving DecidableEq, Repr

/-- `CashFlowForecast` from `financialHealth.ts`.  The source's `date` field
is the ISO date string of the `d`-th day from today; it is modelled by the day
offset `d` itself (the calendar is a parameter of the embedding). -/
structure CashFlowDay where
  date : ℕ
  projectedBalance : ℚ
  income : ℚ
  expenses : ℚ
  label : Option String
deriving DecidableEq, Repr

/-- The body of `forecastCashFlow`'s day loop.  `dayOfMonthAt d` models
`(today + d).getDate()`, the day-of-month of the `d`-th forecast day;
`n` counts the remaining days, `d` the current day offset, `balance` the
running (unrounded) balance. -/
def forecastGo (dayOfMonthAt : ℕ → ℕ)
    (recurringIncome recurringExpenses : List RecurringFlow) :
    ℕ → ℕ → ℚ → List CashFlowDay
  | 0, _, _ => []
  | n + 1, d, balance =>
    let dayOfMonth := dayOfMonthAt d
    let matchedIncome := recurringIncome.filter fun inc => inc.dayOfMonth = dayOfMonth
    let matchedExpenses := recurringExpenses.filter fun exp => exp.dayOfMonth = dayOfMonth
    let dayIncome := (matchedIncome.map RecurringFlow.amount).sum
    let dayExpense := (matchedExpenses.map fun exp => |exp.amount|).sum
    let labels := (matchedIncome.map fun inc => "+" ++ inc.description) ++
      (matchedExpenses.map fun exp => "-" ++ exp.description)
    let balance' := balance + dayIncome - dayExpense
    { date := d
      projectedBalance := round2 balance'
      income := dayIncome
      expenses := dayExpense
      label := if labels.isEmpty then none else some (String.intercalate ", " labels) } ::
      forecastGo dayOfMonthAt recurringIncome recurringExpenses n (d + 1) balance'

/-- `forecastCashFlow` from `financialHealth.ts`, with the calendar abstracted
as `dayOfMonthAt`. -/
def forecastCashFlow (dayOfMonthAt : ℕ → ℕ) (currentBalance : ℚ)
    (recurringIncome recurringExpenses : List RecurringFlow) (days : ℕ) :
    List CashFlowDay :=
  forecastGo dayOfMonthAt recurringIncome recurringExpenses days 0 currentBalance

/-- Modelled from the spec's wording of the cash-flow contract: the income
matched on day `d` ("sum all recurring flows whose `dayOfMonth` equals that
date's day-of-month", income added). -/
def incomeOn (dayOfMonthAt : ℕ → ℕ) (recurringIncome : List RecurringFlow) (d : ℕ) : ℚ :=
  ((recurringIncome.filter fun inc => inc.dayOfMonth = dayOfMonthAt d).map
    RecurringFlow.amount).sum

/-- Modelled from the spec's wording: expense amounts matched on day `d`,
taken as absolute values. -/
def expenseOn (dayOfMonthAt : ℕ → ℕ) (recurringExpenses : List RecurringFlow) (d : ℕ) : ℚ :=
  ((recurringExpenses.filter fun exp => exp.dayOfMonth = dayOfMonthAt d).map
    fun exp => |exp.amount|).sum

/-- Modelled from the spec's wording: the running balance carried forward,
after the flows of days `0, …, d-1` have been applied to the starting
balance. -/
def runningBalance (dayOfMonthAt : ℕ → ℕ) (currentBalance : ℚ)
    (recurringIncome recurringExpenses : List RecurringFlow) : ℕ → ℚ
  | 0 => currentBalance
  | d + 1 => runningBalance dayOfMonthAt currentBalance recurringIncome recurringExpenses d +
      incomeOn dayOfMonthAt recurringIncome d - expenseOn dayOfMonthAt recurringExpenses d

/-- Generalization of `runningBalance` to an arbitrary start day `d0` and
start balance `b` (used to follow the day loop's recursion). -/
def runningBalanceFrom (dayOfMonthAt : ℕ → ℕ) (b : ℚ)
    (recurringIncome recurringExpenses : List RecurringFlow) (d0 : ℕ) : ℕ → ℚ
  | 0 => b
  | m + 1 => runningBalanceFrom dayOfMonthAt b recurringIncome recurringExpenses d0 m +
      incomeOn dayOfMonthAt recurringIncome (d0 + m) -
      expenseOn dayOfMonthAt recurringExpenses (d0 + m)

/-- Modelled from the spec's wording: the day's label concatenates the matched
descriptions prefixed with `+` / `-` (incomes first), and is omitted when no
flow matched. -/
def labelOn (dayOfMonthAt : ℕ → ℕ)
    (recurringIncome recurringExpenses : List RecurringFlow) (d : ℕ) : Option String :=
  let labels := ((recurringIncome.filter fun inc => inc.dayOfMonth = dayOfMonthAt d).map
      fun inc => "+" ++ inc.description) ++
    ((recurringExpenses.filter fun exp => exp.dayOfMonth = dayOfMonthAt d).map
      fun exp => "-" ++ exp.description)
  if labels.isEmpty then none else some (String.intercalate ", " labels)

end FinancialHealth

namespace Projections

/-- `GrowthProjectionEntry`: one year of the deterministic projection of the
`investment-growth` route. -/
structure GrowthProjectionEntry where
  year : ℕ
  balance : ℚ
  contributions : ℚ
  growth : ℚ
deriving DecidableEq, Repr

/-- The inner `for (m = 0; m < 12; m++)` loop of the deterministic projection:
`balance = balance*(1+monthlyRate) + monthlyAdd` and
`totalContributions += monthlyAdd`, iterated `m` times. -/
def detMonths (monthlyRate monthlyAdd : ℚ) : ℕ → ℚ × ℚ → ℚ × ℚ
  | 0, s => s
  | m + 1, s => detMonths monthlyRate monthlyAdd m
      (s.1 * (1 + monthlyRate) + monthlyAdd, s.2 + monthlyAdd)

/-- The year loop of the deterministic projection. -/
def projGo (monthlyRate monthlyAdd : ℚ) :
    ℕ → ℕ → ℚ × ℚ → List GrowthProjectionEntry
  | 0, _, _ => []
  | n + 1, year, s =>
    let s' := detMonths monthlyRate monthlyAdd 12 s
    { year := year
      balance := round2 s'.1
      contributions := round2 s'.2
      growth := round2 (s'.1 - s'.2) } ::
      projGo monthlyRate monthlyAdd n (year + 1) s'

/-- The deterministic projection of the `investment-growth` handler in
`routes/projections.ts`: `totalContributions` starts at the initial balance,
and each year pushes `{year, balance, contributions, growth}` rounded to
cents. -/
def investmentProjection (years : ℕ) (annualReturnPct monthlyAdd currentBalance : ℚ) :
    List GrowthProjectionEntry :=
  let rate := annualReturnPct / 100
  let monthlyRate := rate / 12
  projGo monthlyRate monthlyAdd years 1 (currentBalance, currentBalance)

/-- Modelled from the spec's wording: one application of
`balance = balance*(1+monthlyRate) + contribution`. -/
def specMonthlyStep (monthlyRate monthlyAdd balance : ℚ) : ℚ :=
  balance * (1 + monthlyRate) + monthlyAdd

/-- The 12-month inner loop of `runSimulation` (Monte Carlo): each month draws
`rnd k ∈ [0,1)` (modelling `Math.random()`), applies the uniformly perturbed
return, and advances the draw counter. -/
def mcMonths (rnd : ℕ → ℚ) (avgReturn stdDev monthlyAdd : ℚ) :
    ℕ → ℕ → ℚ → ℚ
  | 0, _, bal => bal
  | m + 1, k, bal =>
    let randomReturn := avgReturn + stdDev * (rnd k * 2 - 1)
    mcMonths rnd avgReturn stdDev monthlyAdd m (k + 1)
      (bal * (1 + randomReturn / 12) + monthlyAdd)

/-- The year loop of `runSimulation`: push the cents-rounded balance after
each simulated year. -/
def mcYears (rnd : ℕ → ℚ) (avgReturn stdDev monthlyAdd : ℚ) :
    ℕ → ℕ → ℚ → List ℚ
  | 0, _, _ => []
  | y + 1, k, bal =>
    let bal' := mcMonths rnd avgReturn stdDev monthlyAdd 12 k bal
    round2 bal' :: mcYears rnd avgReturn stdDev monthlyAdd y (k + 12) bal'

/-- `runSimulation` from the `investment-growth` handler; `k0` is the position
of this run in the global `Math.random()` draw stream. -/
def runSimulation (rnd : ℕ → ℚ) (k0 : ℕ) (currentBalance monthlyAdd : ℚ)
    (avgReturn stdDev : ℚ) (years : ℕ) : List ℚ :=
  mcYears rnd avgReturn stdDev monthlyAdd years k0 currentBalance

/-- The `for (i = 0; i < 50; i++)` loop pushes one conservative, one moderate
and one aggressive run per iteration; each run consumes `12*years` draws from
the shared `Math.random()` stream.  `profile` is 0, 1 or 2 for
conservative/moderate/aggressive. -/
def profileRuns (rnd : ℕ → ℚ) (years : ℕ) (currentBalance monthlyAdd : ℚ)
    (profile : ℕ) (avgReturn stdDev : ℚ) : List (List ℚ) :=
  (List.range 50).map fun i =>
    runSimulation rnd (i * (36 * years) + profile * (12 * years))
      currentBalance monthlyAdd avgReturn stdDev years

/-- `getPercentile` from `routes/projections.ts`: sort the year-`yearIdx`
values of all runs ascending and take the entry at index
`Math.floor(values.length * pct)`. -/
def getPercentile (runs : List (List ℚ)) (yearIdx : ℕ) (pct : ℚ) : ℚ :=
  let values := sortBy (fun a b => decide (a ≤ b)) (runs.map fun r => r.getD yearIdx 0)
  let idx := (⌊(values.length : ℚ) * pct⌋).toNat
  values.getD idx 0

/-- `{low, mid, high}` percentile band of one risk profile. -/
structure Band where
  low : ℚ
  mid : ℚ
  high : ℚ
deriving DecidableEq, Repr, Inhabited

/-- `MonteCarloYearEntry`. -/
structure MonteCarloYearEntry where
  year : ℕ
  conservative : Band
  moderate : Band
  aggressive : Band
deriving DecidableEq, Repr, Inhabited

/-- The Monte Carlo section of the `investment-growth` handler: 50 runs per
profile (conservative avg 5% spread 8%, moderate 7%/12%, aggressive 10%/18%),
then per year the 10th/50th/90th percentile of each profile's runs. -/
def monteCarlo (rnd : ℕ → ℚ) (years : ℕ) (currentBalance monthlyAdd : ℚ) :
    List MonteCarloYearEntry :=
  let conservativeRuns := profileRuns rnd years currentBalance monthlyAdd 0 (5/100) (8/100)
  let moderateRuns := profileRuns rnd years currentBalance monthlyAdd 1 (7/100) (12/100)
  let aggressiveRuns := profileRuns rnd years currentBalance monthlyAdd 2 (10/100) (18/100)
  (List.range years).map fun y =>
    { year := y + 1
      conservative := ⟨getPercentile conservativeRuns y (1/10),
        getPercentile conservativeRuns y (1/2), getPercentile conservativeRuns y (9/10)⟩
      moderate := ⟨getPercentile moderateRuns y (1/10),
        getPercentile moderateRuns y (1/2), getPercentile moderateRuns y (9/10)⟩
      aggressive := ⟨getPercentile aggressiveRuns y (1/10),
        getPercentile aggressiveRuns y (1/2), getPercentile aggressiveRuns y (9/10)⟩ }

end Projections

theorem insertBy_length {α : Type} (le : α → α → Bool) (x : α) (l : List α) :
    (insertBy le x l).length = l.length + 1 := by
  induction l with
  | nil => rfl
  | cons y ys ih => by_cases h : le y x <;> simp [insertBy, h, ih]

theorem mem_insertBy {α : Type} (le : α → α → Bool) (x a : α) (l : List α) :
    a ∈ insertBy le x l ↔ a = x ∨ a ∈ l := by
  induction l with
  | nil => simp [insertBy]
  | cons y ys ih =>
    by_cases h : le y x <;> simp [insertBy, h, ih] <;> tauto

theorem sortBy_length {α : Type} (le : α → α → Bool) (l : List α) :
    (sortBy le l).length = l.length := by
  suffices h : ∀ (l acc : List α),
      (l.foldl (fun acc x => insertBy le x acc) acc).length = acc.length + l.length by
    simpa using h l []
  intro l
  induction l with
  | nil => simp
  | cons y ys ih =>
    intro acc
    simp only [List.foldl_cons, ih, insertBy_length, List.length_cons]
    omega

theorem insertBy_sorted (x : ℚ) (l : List ℚ) (h : l.Sorted (· ≤ ·)) :
    (insertBy (fun a b => decide (a ≤ b)) x l).Sorted (· ≤ ·) := by
  induction l with
  | nil => simp [insertBy]
  | cons y ys ih =>
    rw [List.sorted_cons] at h
    rw [insertBy]
    split
    next hc =>
      have hyx : y ≤ x := by simpa using hc
      rw [List.sorted_cons]
      refine ⟨fun b hb => ?_, ih h.2⟩
      rcases (mem_insertBy _ x b ys).1 hb with rfl | hb'
      · exact hyx
      · exact h.1 b hb'
    next hc =>
      have hxy : x ≤ y := le_of_not_le (by simpa using hc)
      rw [List.sorted_cons]
      refine ⟨fun b hb => ?_, List.sorted_cons.mpr h⟩
      rcases List.mem_cons.1 hb with rfl | hb'
      · exact hxy
      · exact le_trans hxy (h.1 b hb')

theorem sortBy_sorted (l : List ℚ) :
    (sortBy (fun a b => decide (a ≤ b)) l).Sorted (· ≤ ·) := by
  suffices h : ∀ (l acc : List ℚ), acc.Sorted (· ≤ ·) →
      (l.foldl (fun acc x => insertBy (fun a b => decide (a ≤ b)) x acc) acc).Sorted
        (· ≤ ·) by
    exact h l [] (by simp)
  intro l
  induction l with
  | nil => intro acc hacc; simpa using hacc
  | cons y ys ih =>
    intro acc hacc
    simpa using ih _ (insertBy_sorted y acc hacc)

theorem sorted_getD_mono (l : List ℚ) (h : l.Sorted (· ≤ ·)) {i j : ℕ}
    (hij : i ≤ j) (hj : j < l.length) : l.getD i 0 ≤ l.getD j 0 := by
  have hi : i < l.length := lt_of_le_of_lt hij hj
  rw [l.getD_eq_getElem 0 hi, l.getD_eq_getElem 0 hj]
  rcases Nat.lt_or_ge i j with hlt | hge
  · exact (List.pairwise_iff_getElem.1 h) i j hi hj hlt
  · have : i = j := le_antisymm hij hge
    subst this
    exact le_refl _


namespace DebtPayoff

theorem simGo_months_le (extraMonthly : ℚ) (fuel month : ℕ)
    (st : List (DebtInput × ℚ)) (schedAcc : List PayoffMonth)
    (orderAcc : List PayoffEntry) (tp ti : ℚ) :
    (simGo extraMonthly fuel month st schedAcc orderAcc tp ti).months ≤ month + fuel := by
  induction fuel generalizing month st schedAcc orderAcc tp ti with
  | zero => simp [simGo]
  | succ fuel ih =>
    rw [simGo]
    split
    · simp
    · exact le_trans (ih _ _ _ _ _ _) (by omega)

/-- C1: for every non-empty debt list satisfying the preconditions
(balance ≥ 0, rate ∈ [0,100], minimum ≥ 0), every strategy and every
extraMonthly ≥ 0, `calculatePayoff` terminates (it is a total function of this
embedding) and the returned `months` field is at most 360. -/
theorem C1_payoff_months_le_360 (debts : List DebtInput) (strategy : Strategy)
    (extraMonthly : ℚ) (hne : debts ≠ []) (hv : ValidDebts debts)
    (he : 0 ≤ extraMonthly) :
    (calculatePayoff debts strategy extraMonthly).months ≤ 360 := by
  unfold calculatePayoff
  simpa using simGo_months_le extraMonthly 360 0
    ((sortDebts strategy debts).map fun d => (d, d.balance)) [] [] 0 0

theorem monthStep_nil (eb : ℚ) : monthStep eb [] = ([], []) := rfl

theorem monthStep_dead_cons (eb : ℚ) (d : DebtInput) (bal : ℚ)
    (rest : List (DebtInput × ℚ)) (h : bal ≤ 1/100) :
    monthStep eb ((d, bal) :: rest) =
      ((d, bal) :: (monthStep eb rest).1, (monthStep eb rest).2) := by
  rw [monthStep, if_pos h]

theorem payAmount_ge (m x eb : ℚ) : min m x ≤ payAmount m x eb := by
  rw [payAmount]
  split
  next hc => linarith [hc.2]
  next => exact le_refl _

theorem payAmount_le (m x eb : ℚ) : payAmount m x eb ≤ x + 1/100 := by
  have hmx : min m x ≤ x := min_le_right m x
  rw [payAmount]
  split
  next hc => linarith [min_le_right eb (x - min m x + 1/100)]
  next => linarith

theorem payAmount_of_nonpos (m x eb : ℚ) (h : eb ≤ 0) : payAmount m x eb = min m x := by
  rw [payAmount, if_neg]
  rintro ⟨h1, -⟩
  linarith

theorem payAmount_newBal (m x eb : ℚ) :
    max 0 (x - payAmount m x eb) = max 0 (max 0 (x - m) - max eb 0) := by
  have hmx : min m x ≤ x := min_le_right m x
  have hrem : x - min m x = max 0 (x - m) := by
    rcases le_total m x with hm | hm
    · rw [min_eq_left hm]
      exact (max_eq_right (by linarith)).symm
    · rw [min_eq_right hm, sub_self]
      exact (max_eq_left (by linarith)).symm
  rw [payAmount]
  rcases le_or_lt eb 0 with heb | heb
  · rw [if_neg (by rintro ⟨h1, -⟩; linarith), max_eq_right heb, sub_zero,
      max_eq_right (le_max_left 0 (x - m)), ← hrem]
    exact max_eq_right (by linarith)
  · rw [if_pos ⟨heb, lt_min heb (by linarith)⟩, max_eq_left heb.le, ← hrem]
    rcases le_or_lt eb (x - min m x + 1/100) with hle | hlt
    · rw [min_eq_left hle]
      exact congrArg (fun t => max 0 t) (by ring)
    · rw [min_eq_right hlt.le]
      have hl : x - (min m x + (x - min m x + 1/100)) = -(1/100) := by ring
      rw [hl]
      have h2 : max 0 (-(1/100) : ℚ) = 0 := max_eq_left (by norm_num)
      rw [h2]
      exact (max_eq_left (by linarith)).symm

/-- Normal form of one outstanding debt's month: the payment is
`payAmount d.minimum (bal + interest) eb`, the new balance
`max 0 (bal + interest - pay)`, and when the budget was positive the rest of
the list is processed with zero budget (the source's `break`). -/
theorem monthStep_alive_cons (eb : ℚ) (d : DebtInput) (bal : ℚ)
    (rest : List (DebtInput × ℚ)) (h : ¬ bal ≤ 1/100) :
    monthStep eb ((d, bal) :: rest) =
      ((d, max 0 (bal + bal * (d.rate / 100 / 12) -
          payAmount d.minimum (bal + bal * (d.rate / 100 / 12)) eb)) ::
          (monthStep (if 0 < eb then 0 else eb) rest).1,
        ⟨d.id, d.name,
          max 0 (bal + bal * (d.rate / 100 / 12) -
            payAmount d.minimum (bal + bal * (d.rate / 100 / 12)) eb),
          payAmount d.minimum (bal + bal * (d.rate / 100 / 12)) eb,
          bal * (d.rate / 100 / 12),
          payAmount d.minimum (bal + bal * (d.rate / 100 / 12)) eb -
            bal * (d.rate / 100 / 12)⟩ ::
          (monthStep (if 0 < eb then 0 else eb) rest).2) := by
  rw [monthStep, if_neg h]
  rfl

theorem monthStep_fst_debts (eb : ℚ) (st : List (DebtInput × ℚ)) :
    (monthStep eb st).1.map Prod.fst = st.map Prod.fst := by
  induction st generalizing eb with
  | nil => rfl
  | cons p rest ih =>
    obtain ⟨d, bal⟩ := p
    by_cases h : bal ≤ 1/100
    · rw [monthStep_dead_cons _ _ _ _ h]
      simp [ih]
    · rw [monthStep_alive_cons _ _ _ _ h]
      simp [ih]

theorem monthStep_StOK (eb : ℚ) (st : List (DebtInput × ℚ)) :
    StOK st → StOK (monthStep eb st).1 := by
  induction st generalizing eb with
  | nil =>
    intro h
    rw [monthStep_nil]
    exact h
  | cons p rest ih =>
    intro hst
    obtain ⟨d, bal⟩ := p
    have hd := hst (d, bal) (List.mem_cons_self _ _)
    have hrest : StOK rest := fun q hq => hst q (List.mem_cons_of_mem _ hq)
    by_cases h : bal ≤ 1/100
    · rw [monthStep_dead_cons _ _ _ _ h]
      intro q hq
      rcases List.mem_cons.1 hq with rfl | hq'
      · exact hd
      · exact ih eb hrest q hq'
    · rw [monthStep_alive_cons _ _ _ _ h]
      intro q hq
      rcases List.mem_cons.1 hq with rfl | hq'
      · exact ⟨hd.1, hd.2.1, le_max_left 0 _⟩
      · exact ih _ hrest q hq'

theorem monthStep_entries_pay_eq (eb : ℚ) (st : List (DebtInput × ℚ)) :
    ∀ e ∈ (monthStep eb st).2, e.payment = e.interest + e.principal := by
  induction st generalizing eb with
  | nil =>
    intro e he
    rw [monthStep_nil] at he
    exact absurd he (List.not_mem_nil e)
  | cons p rest ih =>
    obtain ⟨d, bal⟩ := p
    by_cases h : bal ≤ 1/100
    · rw [monthStep_dead_cons _ _ _ _ h]
      exact ih eb
    · rw [monthStep_alive_cons _ _ _ _ h]
      intro e he
      rcases List.mem_cons.1 he with rfl | he'
      · dsimp only
        ring
      · exact ih _ e he'

theorem monthStep_entries_nonneg (eb : ℚ) (st : List (DebtInput × ℚ)) (hst : StOK st) :
    ∀ e ∈ (monthStep eb st).2, 0 ≤ e.payment ∧ 0 ≤ e.interest ∧ 0 ≤ e.balance := by
  induction st generalizing eb with
  | nil =>
    intro e he
    rw [monthStep_nil] at he
    exact absurd he (List.not_mem_nil e)
  | cons p rest ih =>
    obtain ⟨d, bal⟩ := p
    have hd := hst (d, bal) (List.mem_cons_self _ _)
    have hrest : StOK rest := fun q hq => hst q (List.mem_cons_of_mem _ hq)
    by_cases h : bal ≤ 1/100
    · rw [monthStep_dead_cons _ _ _ _ h]
      exact ih eb hrest
    · rw [monthStep_alive_cons _ _ _ _ h]
      intro e he
      have hbal : (0 : ℚ) < bal := by
        have := not_le.1 h
        linarith
      have hint : 0 ≤ bal * (d.rate / 100 / 12) := by
        have hr : 0 ≤ d.rate / 100 / 12 :=
          div_nonneg (div_nonneg hd.1 (by norm_num)) (by norm_num)
        exact mul_nonneg hbal.le hr
      rcases List.mem_cons.1 he with rfl | he'
      · refine ⟨?_, hint, le_max_left 0 _⟩
        have h1 : (0 : ℚ) ≤ min d.minimum (bal + bal * (d.rate / 100 / 12)) :=
          le_min hd.2.1 (by linarith)
        exact le_trans h1 (payAmount_ge _ _ _)
      · exact ih _ hrest e he'

theorem freedMinimums_cons (p : DebtInput × ℚ) (l : List (DebtInput × ℚ)) :
    freedMinimums (p :: l) =
      (if p.2 ≤ 1/100 then p.1.minimum else 0) + freedMinimums l := by
  rw [freedMinimums, freedMinimums, List.filter_cons]
  split
  next hc =>
    rw [if_pos (by simpa using hc)]
    simp
  next hc =>
    rw [if_neg (by simpa using hc)]
    simp

theorem freedMinimums_nonneg (st : List (DebtInput × ℚ)) (hst : StOK st) :
    0 ≤ freedMinimums st := by
  induction st with
  | nil => rw [freedMinimums]; simp
  | cons p rest ih =>
    have hp := hst p (List.mem_cons_self _ _)
    have hrest : StOK rest := fun q hq => hst q (List.mem_cons_of_mem _ hq)
    rw [freedMinimums_cons]
    have h1 : 0 ≤ (if p.2 ≤ 1/100 then p.1.minimum else 0) := by
      split
      · exact hp.2.1
      · exact le_refl 0
    linarith [ih hrest]

theorem simGo_stop (e : ℚ) (fuel month : ℕ) (st : List (DebtInput × ℚ))
    (acc : List PayoffMonth) (ord : List PayoffEntry) (tp ti : ℚ)
    (h : (st.filter fun p => 1/100 < p.2).isEmpty = true) :
    simGo e (fuel + 1) month st acc ord tp ti = ⟨month, tp, ti, acc, ord⟩ := by
  rw [simGo, if_pos h]

theorem simGo_cont (e : ℚ) (fuel month : ℕ) (st : List (DebtInput × ℚ))
    (acc : List PayoffMonth) (ord : List PayoffEntry) (tp ti : ℚ)
    (h : ¬ (st.filter fun p => 1/100 < p.2).isEmpty = true) :
    simGo e (fuel + 1) month st acc ord tp ti =
      simGo e fuel (month + 1) (monthStep (e + freedMinimums st) st).1
        (acc ++ [⟨month + 1, (monthStep (e + freedMinimums st) st).2,
          ((monthStep (e + freedMinimums st) st).1.map fun p => p.2).sum,
          ((monthStep (e + freedMinimums st) st).2.map MonthEntry.payment).sum,
          ((monthStep (e + freedMinimums st) st).2.map MonthEntry.interest).sum⟩])
        (newPayoffs (month + 1) ord (monthStep (e + freedMinimums st) st).2)
        (tp + ((monthStep (e + freedMinimums st) st).2.map MonthEntry.payment).sum)
        (ti + ((monthStep (e + freedMinimums st) st).2.map MonthEntry.interest).sum) := by
  rw [simGo, if_neg h]

theorem simGo_month_le (e : ℚ) (fuel month : ℕ) (st : List (DebtInput × ℚ))
    (acc : List PayoffMonth) (ord : List PayoffEntry) (tp ti : ℚ) :
    month ≤ (simGo e fuel month st acc ord tp ti).months := by
  induction fuel generalizing month st acc ord tp ti with
  | zero => simp [simGo]
  | succ fuel ih =>
    rw [simGo]
    split
    · simp
    · exact le_trans (by omega) (ih (month + 1) _ _ _ _ _)

theorem simGo_schedule_prefix (e : ℚ) (fuel month : ℕ) (st : List (DebtInput × ℚ))
    (acc : List PayoffMonth) (ord : List PayoffEntry) (tp ti : ℚ) :
    ∃ rest, (simGo e fuel month st acc ord tp ti).schedule = acc ++ rest := by
  induction fuel generalizing month st acc ord tp ti with
  | zero => exact ⟨[], by simp [simGo]⟩
  | succ fuel ih =>
    by_cases h : (st.filter fun p => 1/100 < p.2).isEmpty = true
    · rw [simGo_stop _ _ _ _ _ _ _ _ h]
      exact ⟨[], by simp⟩
    · rw [simGo_cont _ _ _ _ _ _ _ _ h]
      obtain ⟨r, hr⟩ := ih (month + 1)
        (monthStep (e + freedMinimums st) st).1
        (acc ++ [⟨month + 1, (monthStep (e + freedMinimums st) st).2,
          ((monthStep (e + freedMinimums st) st).1.map fun p => p.2).sum,
          ((monthStep (e + freedMinimums st) st).2.map MonthEntry.payment).sum,
          ((monthStep (e + freedMinimums st) st).2.map MonthEntry.interest).sum⟩])
        (newPayoffs (month + 1) ord (monthStep (e + freedMinimums st) st).2)
        (tp + ((monthStep (e + freedMinimums st) st).2.map MonthEntry.payment).sum)
        (ti + ((monthStep (e + freedMinimums st) st).2.map MonthEntry.interest).sum)
      rw [List.append_assoc] at hr
      exact ⟨_, hr⟩

theorem mem_foldl_insertBy {α : Type} (le : α → α → Bool) (a : α) :
    ∀ (l acc : List α),
      (a ∈ l.foldl (fun acc x => insertBy le x acc) acc ↔ a ∈ acc ∨ a ∈ l) := by
  intro l
  induction l with
  | nil => intro acc; simp
  | cons y ys ih =>
    intro acc
    rw [List.foldl_cons, ih (insertBy le y acc)]
    rw [mem_insertBy]
    simp only [List.mem_cons]
    tauto

theorem mem_sortBy {α : Type} (le : α → α → Bool) (l : List α) (a : α) :
    a ∈ sortBy le l ↔ a ∈ l := by
  rw [sortBy, mem_foldl_insertBy]
  simp

theorem mem_sortDebts (strategy : Strategy) (debts : List DebtInput) (d : DebtInput) :
    d ∈ sortDebts strategy debts ↔ d ∈ debts := by
  rw [sortDebts, mem_sortBy]

theorem StOK_init (strategy : Strategy) (debts : List DebtInput) (hv : ValidDebts debts) :
    StOK ((sortDebts strategy debts).map fun d => (d, d.balance)) := by
  intro p hp
  simp only [List.mem_map] at hp
  obtain ⟨d, hd, rfl⟩ := hp
  have hdv := hv d ((mem_sortDebts strategy debts d).1 hd)
  exact ⟨hdv.2.1, hdv.2.2.2, hdv.1⟩

theorem sum_map_nonneg {α : Type} (l : List α) (f : α → ℚ) (h : ∀ x ∈ l, 0 ≤ f x) :
    0 ≤ (l.map f).sum := by
  induction l with
  | nil => simp
  | cons x xs ih =>
    rw [List.map_cons, List.sum_cons]
    have h1 := h x (List.mem_cons_self _ _)
    have h2 := ih fun y hy => h y (List.mem_cons_of_mem _ hy)
    linarith

theorem simGo_nonneg (e : ℚ) (he : 0 ≤ e) (fuel : ℕ) :
    ∀ (month : ℕ) (st : List (DebtInput × ℚ)) (acc : List PayoffMonth)
      (ord : List PayoffEntry) (tp ti : ℚ),
      StOK st → 0 ≤ tp → 0 ≤ ti →
      (∀ pm ∈ acc, 0 ≤ pm.totalBalance ∧ 0 ≤ pm.totalPayment ∧ 0 ≤ pm.totalInterest ∧
        ∀ en ∈ pm.debts, 0 ≤ en.balance ∧ 0 ≤ en.payment ∧ 0 ≤ en.interest) →
      (∀ pm ∈ (simGo e fuel month st acc ord tp ti).schedule,
        0 ≤ pm.totalBalance ∧ 0 ≤ pm.totalPayment ∧ 0 ≤ pm.totalInterest ∧
        ∀ en ∈ pm.debts, 0 ≤ en.balance ∧ 0 ≤ en.payment ∧ 0 ≤ en.interest) ∧
      0 ≤ (simGo e fuel month st acc ord tp ti).totalPaid ∧
      0 ≤ (simGo e fuel month st acc ord tp ti).totalInterest := by
  induction fuel with
  | zero =>
    intro month st acc ord tp ti hst htp hti hacc
    rw [simGo]
    exact ⟨hacc, htp, hti⟩
  | succ fuel ih =>
    intro month st acc ord tp ti hst htp hti hacc
    by_cases h : (st.filter fun p => 1/100 < p.2).isEmpty = true
    · rw [simGo_stop _ _ _ _ _ _ _ _ h]
      exact ⟨hacc, htp, hti⟩
    · rw [simGo_cont _ _ _ _ _ _ _ _ h]
      have heb : 0 ≤ e + freedMinimums st := add_nonneg he (freedMinimums_nonneg st hst)
      have hstok' := monthStep_StOK (e + freedMinimums st) st hst
      have hent := monthStep_entries_nonneg (e + freedMinimums st) st hst
      have hpay : 0 ≤ ((monthStep (e + freedMinimums st) st).2.map MonthEntry.payment).sum :=
        sum_map_nonneg _ _ fun x hx => (hent x hx).1
      have hint : 0 ≤ ((monthStep (e + freedMinimums st) st).2.map MonthEntry.interest).sum :=
        sum_map_nonneg _ _ fun x hx => (hent x hx).2.1
      have hbal : 0 ≤ ((monthStep (e + freedMinimums st) st).1.map fun p => p.2).sum :=
        sum_map_nonneg _ _ fun x hx => (hstok' x hx).2.2
      refine ih (month + 1) _ _ _ _ _ hstok' (add_nonneg htp hpay) (add_nonneg hti hint) ?_
      intro pm hpm
      rcases List.mem_append.1 hpm with hpm' | hpm'
      · exact hacc pm hpm'
      · rcases List.mem_singleton.1 hpm' with rfl
        exact ⟨hbal, hpay, hint, fun en hen =>
          ⟨(hent en hen).2.2, (hent en hen).1, (hent en hen).2.1⟩⟩

/-- C5 (amended): under the preconditions, every per-debt `balance`, `payment`
and `interest` in the schedule is non-negative, as are `months`, `totalPaid`,
`totalInterest` and each month's `totalBalance`, `totalPayment` and
`totalInterest`.  (The claim's additional assertion that the per-debt
`principal` field is non-negative is false: when a debt's minimum payment is
below its accrued interest the recorded principal is negative.) -/
theorem C5_nonneg_fields (debts : List DebtInput) (strategy : Strategy)
    (extraMonthly : ℚ) (hv : ValidDebts debts) (he : 0 ≤ extraMonthly) :
    (∀ pm ∈ (calculatePayoff debts strategy extraMonthly).schedule,
      0 ≤ pm.totalBalance ∧ 0 ≤ pm.totalPayment ∧ 0 ≤ pm.totalInterest ∧
        ∀ en ∈ pm.debts, 0 ≤ en.balance ∧ 0 ≤ en.payment ∧ 0 ≤ en.interest) ∧
    0 ≤ (calculatePayoff debts strategy extraMonthly).totalPaid ∧
    0 ≤ (calculatePayoff debts strategy extraMonthly).totalInterest ∧
    0 ≤ (calculatePayoff debts strategy extraMonthly).months := by
  have h := simGo_nonneg extraMonthly he 360 0
    ((sortDebts strategy debts).map fun d => (d, d.balance)) [] [] 0 0
    (StOK_init strategy debts hv) (le_refl 0) (le_refl 0)
    (by intro pm hpm; exact absurd hpm (List.not_mem_nil pm))
  exact ⟨h.1, h.2.1, h.2.2, Nat.zero_le _⟩

/-- Witness for C5 at a concrete input. -/
theorem C5_nonneg_fields_witness :
    (ValidDebts [⟨"a", "a", 100, 10, 20⟩] ∧ (0 : ℚ) ≤ 5) ∧
    ((∀ pm ∈ (calculatePayoff [⟨"a", "a", 100, 10, 20⟩] Strategy.avalanche 5).schedule,
      0 ≤ pm.totalBalance ∧ 0 ≤ pm.totalPayment ∧ 0 ≤ pm.totalInterest ∧
        ∀ en ∈ pm.debts, 0 ≤ en.balance ∧ 0 ≤ en.payment ∧ 0 ≤ en.interest) ∧
    0 ≤ (calculatePayoff [⟨"a", "a", 100, 10, 20⟩] Strategy.avalanche 5).totalPaid ∧
    0 ≤ (calculatePayoff [⟨"a", "a", 100, 10, 20⟩] Strategy.avalanche 5).totalInterest ∧
    0 ≤ (calculatePayoff [⟨"a", "a", 100, 10, 20⟩] Strategy.avalanche 5).months) :=
  ⟨⟨by decide, by norm_num⟩,
    C5_nonneg_fields [⟨"a", "a", 100, 10, 20⟩] Strategy.avalanche 5 (by decide) (by norm_num)⟩

/-- Counterexample to C5 as stated: a debt with minimum payment 0 accrues
interest 10 in the first month and its recorded `principal` is −10 < 0, even
though the input satisfies all the claim's preconditions. -/
theorem C5_counterexample :
    ((calculatePayoff [⟨"d1", "loan", 1000, 12, 0⟩] Strategy.avalanche 0).schedule[0]?.map
      fun pm => pm.debts.map MonthEntry.principal) = some ([-10] : List ℚ) ∧
    ¬ (0 : ℚ) ≤ -10 := by
  constructor
  · have hcalc : (calculatePayoff [⟨"d1", "loan", 1000, 12, 0⟩] Strategy.avalanche 0).schedule
        = (simGo 0 360 0 [(⟨"d1", "loan", 1000, 12, 0⟩, 1000)] [] [] 0 0).schedule := rfl
    rw [hcalc]
    have h1 : simGo 0 360 0 [(⟨"d1", "loan", 1000, 12, 0⟩, 1000)] [] [] 0 0
        = simGo 0 359 1 [(⟨"d1", "loan", 1000, 12, 0⟩, 1010)]
            [⟨1, [⟨"d1", "loan", 1010, 0, 10, -10⟩], 1010, 0, 10⟩] [] 0 10 := by
      refine Eq.trans (simGo_cont 0 359 0 _ _ _ _ _ ?_) ?_
      · norm_num [List.filter_cons]
      · norm_num [monthStep, freedMinimums, newPayoffs, List.filter_cons, min_def, max_def]
    rw [h1]
    obtain ⟨rest, hr⟩ := simGo_schedule_prefix 0 359 1
      [(⟨"d1", "loan", 1000, 12, 0⟩, 1010)]
      [⟨1, [⟨"d1", "loan", 1010, 0, 10, -10⟩], 1010, 0, 10⟩] [] 0 10
    rw [hr, List.singleton_append, List.getElem?_cons_zero]
    rfl
  · norm_num

theorem sum_payment_eq (l : List MonthEntry)
    (h : ∀ e ∈ l, e.payment = e.interest + e.principal) :
    (l.map MonthEntry.payment).sum =
      (l.map MonthEntry.interest).sum + (l.map MonthEntry.principal).sum := by
  induction l with
  | nil => simp
  | cons x xs ih =>
    simp only [List.map_cons, List.sum_cons]
    rw [h x (List.mem_cons_self _ _), ih fun y hy => h y (List.mem_cons_of_mem _ hy)]
    ring

theorem simGo_conservation (e : ℚ) (fuel : ℕ) :
    ∀ (month : ℕ) (st : List (DebtInput × ℚ)) (acc : List PayoffMonth)
      (ord : List PayoffEntry) (tp ti : ℚ),
      (∀ pm ∈ acc, pm.totalPayment =
        pm.totalInterest + (pm.debts.map MonthEntry.principal).sum) →
      ∀ pm ∈ (simGo e fuel month st acc ord tp ti).schedule,
        pm.totalPayment = pm.totalInterest + (pm.debts.map MonthEntry.principal).sum := by
  induction fuel with
  | zero =>
    intro month st acc ord tp ti hacc
    rw [simGo]
    exact hacc
  | succ fuel ih =>
    intro month st acc ord tp ti hacc
    by_cases h : (st.filter fun p => 1/100 < p.2).isEmpty = true
    · rw [simGo_stop _ _ _ _ _ _ _ _ h]
      exact hacc
    · rw [simGo_cont _ _ _ _ _ _ _ _ h]
      refine ih (month + 1) _ _ _ _ _ ?_
      intro pm hpm
      rcases List.mem_append.1 hpm with hpm' | hpm'
      · exact hacc pm hpm'
      · rcases List.mem_singleton.1 hpm' with rfl
        exact sum_payment_eq _ (monthStep_entries_pay_eq _ st)

theorem sum_map_le_of_forall₂ {α : Type} (f : α → ℚ) (l₁ l₂ : List α)
    (h : List.Forall₂ (fun q p => f q ≤ f p) l₁ l₂) :
    (l₁.map f).sum ≤ (l₂.map f).sum := by
  induction h with
  | nil => simp
  | cons hq hrest ih =>
    simp only [List.map_cons, List.sum_cons]
    exact add_le_add hq ih

theorem newBal_le_bal (d : DebtInput) (bal eb : ℚ) (h0 : 0 ≤ bal)
    (hmc : bal * (d.rate / 100 / 12) ≤ d.minimum) :
    max 0 (bal + bal * (d.rate / 100 / 12) -
      payAmount d.minimum (bal + bal * (d.rate / 100 / 12)) eb) ≤ bal := by
  rw [payAmount_newBal]
  have h1 : max 0 (bal + bal * (d.rate / 100 / 12) - d.minimum) ≤ bal := by
    rcases le_or_lt (bal + bal * (d.rate / 100 / 12) - d.minimum) 0 with hc | hc
    · rw [max_eq_left hc]
      exact h0
    · rw [max_eq_right hc.le]
      linarith
  have h2 : max 0 (max 0 (bal + bal * (d.rate / 100 / 12) - d.minimum) - max eb 0) ≤
      max 0 (bal + bal * (d.rate / 100 / 12) - d.minimum) := by
    have h3 : 0 ≤ max eb 0 := le_max_right eb 0
    rcases le_or_lt (max 0 (bal + bal * (d.rate / 100 / 12) - d.minimum) - max eb 0) 0
      with hc | hc
    · rw [max_eq_left hc]
      exact le_max_left 0 _
    · rw [max_eq_right hc.le]
      linarith [le_max_left (0 : ℚ) (bal + bal * (d.rate / 100 / 12) - d.minimum)]
  exact le_trans h2 h1

theorem monthStep_balance_le (eb : ℚ) (st : List (DebtInput × ℚ)) :
    (∀ p ∈ st, 0 ≤ p.2 ∧ 0 ≤ p.1.rate ∧
      p.2 * (p.1.rate / 100 / 12) ≤ p.1.minimum) →
    List.Forall₂ (fun q p => q.2 ≤ p.2) (monthStep eb st).1 st := by
  induction st generalizing eb with
  | nil =>
    intro _
    rw [monthStep_nil]
    exact List.Forall₂.nil
  | cons p rest ih =>
    intro hst
    obtain ⟨d, bal⟩ := p
    have hd := hst (d, bal) (List.mem_cons_self _ _)
    have hrest := fun q hq => hst q (List.mem_cons_of_mem _ hq)
    by_cases h : bal ≤ 1/100
    · rw [monthStep_dead_cons _ _ _ _ h]
      exact List.Forall₂.cons (le_refl bal) (ih eb hrest)
    · rw [monthStep_alive_cons _ _ _ _ h]
      exact List.Forall₂.cons (newBal_le_bal d bal eb hd.1 hd.2.2) (ih _ hrest)

theorem monthStep_MC (eb : ℚ) (st : List (DebtInput × ℚ)) :
    (∀ p ∈ st, 0 ≤ p.2 ∧ 0 ≤ p.1.rate ∧
      p.2 * (p.1.rate / 100 / 12) ≤ p.1.minimum) →
    ∀ q ∈ (monthStep eb st).1, 0 ≤ q.2 ∧ 0 ≤ q.1.rate ∧
      q.2 * (q.1.rate / 100 / 12) ≤ q.1.minimum := by
  induction st generalizing eb with
  | nil =>
    intro _ q hq
    rw [monthStep_nil] at hq
    exact absurd hq (List.not_mem_nil q)
  | cons p rest ih =>
    intro hst
    obtain ⟨d, bal⟩ := p
    have hd := hst (d, bal) (List.mem_cons_self _ _)
    have hrest := fun q hq => hst q (List.mem_cons_of_mem _ hq)
    by_cases h : bal ≤ 1/100
    · rw [monthStep_dead_cons _ _ _ _ h]
      intro q hq
      rcases List.mem_cons.1 hq with rfl | hq'
      · exact hd
      · exact ih eb hrest q hq'
    · rw [monthStep_alive_cons _ _ _ _ h]
      intro q hq
      rcases List.mem_cons.1 hq with rfl | hq'
      · refine ⟨le_max_left 0 _, hd.2.1, ?_⟩
        have hle := newBal_le_bal d bal eb hd.1 hd.2.2
        have hr : 0 ≤ d.rate / 100 / 12 :=
          div_nonneg (div_nonneg hd.2.1 (by norm_num)) (by norm_num)
        calc max 0 (bal + bal * (d.rate / 100 / 12) -
            payAmount d.minimum (bal + bal * (d.rate / 100 / 12)) eb) *
              (d.rate / 100 / 12)
            ≤ bal * (d.rate / 100 / 12) := mul_le_mul_of_nonneg_right hle hr
          _ ≤ d.minimum := hd.2.2
      · exact ih _ hrest q hq'

theorem sum_snd_le_of_forall₂ (l₁ l₂ : List (DebtInput × ℚ))
    (h : List.Forall₂ (fun q p => q.2 ≤ p.2) l₁ l₂) :
    (l₁.map fun p => p.2).sum ≤ (l₂.map fun p => p.2).sum := by
  induction h with
  | nil => simp
  | cons hq hrest ih =>
    simp only [List.map_cons, List.sum_cons]
    exact add_le_add hq ih

theorem simGo_antitone (e : ℚ) (fuel : ℕ) :
    ∀ (month : ℕ) (st : List (DebtInput × ℚ)) (acc : List PayoffMonth)
      (ord : List PayoffEntry) (tp ti : ℚ),
      (∀ p ∈ st, 0 ≤ p.2 ∧ 0 ≤ p.1.rate ∧
        p.2 * (p.1.rate / 100 / 12) ≤ p.1.minimum) →
      List.Chain' (fun a b => b.totalBalance ≤ a.totalBalance) acc →
      (∀ last ∈ acc.getLast?, (st.map fun p => p.2).sum ≤ last.totalBalance) →
      List.Chain' (fun a b => b.totalBalance ≤ a.totalBalance)
        (simGo e fuel month st acc ord tp ti).schedule := by
  induction fuel with
  | zero =>
    intro month st acc ord tp ti _ hchain _
    rw [simGo]
    exact hchain
  | succ fuel ih =>
    intro month st acc ord tp ti hmc hchain hlast
    by_cases h : (st.filter fun p => 1/100 < p.2).isEmpty = true
    · rw [simGo_stop _ _ _ _ _ _ _ _ h]
      exact hchain
    · rw [simGo_cont _ _ _ _ _ _ _ _ h]
      have hsum : ((monthStep (e + freedMinimums st) st).1.map fun p => p.2).sum ≤
          (st.map fun p => p.2).sum :=
        sum_snd_le_of_forall₂ _ _ (monthStep_balance_le (e + freedMinimums st) st hmc)
      refine ih (month + 1) _ _ _ _ _ (monthStep_MC (e + freedMinimums st) st hmc) ?_ ?_
      · rw [List.chain'_append]
        refine ⟨hchain, List.chain'_singleton _, ?_⟩
        intro x hx y hy
        rcases List.mem_singleton.1 (by simpa using hy) with rfl
        exact le_trans hsum (hlast x hx)
      · intro last hlast'
        rw [List.getLast?_concat, Option.mem_some_iff] at hlast'
        subst hlast'
        exact le_refl _

theorem max0_le_add (t : ℚ) (h : -(1/100) ≤ t) : max 0 t ≤ t + 1/100 := by
  rcases le_or_lt t 0 with hc | hc
  · rw [max_eq_left hc]
    linarith
  · rw [max_eq_right hc.le]
    linarith

theorem monthStep_sum_exact (eb : ℚ) (st : List (DebtInput × ℚ)) (heb : eb ≤ 0) :
    ((monthStep eb st).1.map fun p => p.2).sum =
      (st.map fun p => p.2).sum + ((monthStep eb st).2.map MonthEntry.interest).sum -
        ((monthStep eb st).2.map MonthEntry.payment).sum := by
  induction st generalizing eb with
  | nil =>
    rw [monthStep_nil]
    simp
  | cons p rest ih =>
    obtain ⟨d, bal⟩ := p
    by_cases h : bal ≤ 1/100
    · rw [monthStep_dead_cons _ _ _ _ h]
      simp only [List.map_cons, List.sum_cons]
      have := ih eb heb
      linarith
    · rw [monthStep_alive_cons _ _ _ _ h]
      have hif : (if 0 < eb then 0 else eb) = eb := if_neg (not_lt.mpr heb)
      rw [hif]
      simp only [List.map_cons, List.sum_cons]
      have hpay : payAmount d.minimum (bal + bal * (d.rate / 100 / 12)) eb =
          min d.minimum (bal + bal * (d.rate / 100 / 12)) := payAmount_of_nonpos _ _ _ heb
      have hminle := min_le_right d.minimum (bal + bal * (d.rate / 100 / 12))
      have hnb : max 0 (bal + bal * (d.rate / 100 / 12) -
          payAmount d.minimum (bal + bal * (d.rate / 100 / 12)) eb) =
          bal + bal * (d.rate / 100 / 12) -
            payAmount d.minimum (bal + bal * (d.rate / 100 / 12)) eb := by
        rw [hpay]
        exact max_eq_right (by linarith)
      rw [hnb]
      have := ih eb heb
      linarith

theorem monthStep_sum_le (eb : ℚ) (st : List (DebtInput × ℚ)) :
    ((monthStep eb st).1.map fun p => p.2).sum ≤
      (st.map fun p => p.2).sum + ((monthStep eb st).2.map MonthEntry.interest).sum -
        ((monthStep eb st).2.map MonthEntry.payment).sum + 1/100 := by
  induction st generalizing eb with
  | nil =>
    rw [monthStep_nil]
    norm_num
  | cons p rest ih =>
    obtain ⟨d, bal⟩ := p
    by_cases h : bal ≤ 1/100
    · rw [monthStep_dead_cons _ _ _ _ h]
      simp only [List.map_cons, List.sum_cons]
      have := ih eb
      linarith
    · rcases le_or_lt eb 0 with heb | heb
      · rw [monthStep_sum_exact eb _ heb]
        linarith
      · rw [monthStep_alive_cons _ _ _ _ h]
        have hif : (if 0 < eb then 0 else eb) = (0 : ℚ) := if_pos heb
        rw [hif]
        simp only [List.map_cons, List.sum_cons]
        have hnb : max 0 (bal + bal * (d.rate / 100 / 12) -
            payAmount d.minimum (bal + bal * (d.rate / 100 / 12)) eb) ≤
            bal + bal * (d.rate / 100 / 12) -
              payAmount d.minimum (bal + bal * (d.rate / 100 / 12)) eb + 1/100 := by
          refine max0_le_add _ ?_
          have := payAmount_le d.minimum (bal + bal * (d.rate / 100 / 12)) eb
          linarith
        have hrest := monthStep_sum_exact 0 rest (le_refl 0)
        linarith

theorem simGo_month1_mem (e : ℚ) (fuel : ℕ) :
    ∀ (month : ℕ) (st : List (DebtInput × ℚ)) (acc : List PayoffMonth)
      (ord : List PayoffEntry) (tp ti : ℚ), 1 ≤ month →
      ∀ pm ∈ (simGo e fuel month st acc ord tp ti).schedule, pm.month = 1 → pm ∈ acc := by
  induction fuel with
  | zero =>
    intro month st acc ord tp ti _ pm hpm _
    rw [simGo] at hpm
    exact hpm
  | succ fuel ih =>
    intro month st acc ord tp ti hm pm hpm h1
    by_cases h : (st.filter fun p => 1/100 < p.2).isEmpty = true
    · rw [simGo_stop _ _ _ _ _ _ _ _ h] at hpm
      exact hpm
    · rw [simGo_cont _ _ _ _ _ _ _ _ h] at hpm
      have := ih (month + 1) _ _ _ _ _ (by omega) pm hpm h1
      rcases List.mem_append.1 this with h' | h'
      · exact h'
      · rcases List.mem_singleton.1 h' with rfl
        simp at h1
        omega

theorem sum_map_insertBy {α : Type} (le : α → α → Bool) (f : α → ℚ) (x : α)
    (l : List α) : ((insertBy le x l).map f).sum = f x + (l.map f).sum := by
  induction l with
  | nil => simp [insertBy]
  | cons y ys ih =>
    rw [insertBy]
    split
    · simp only [List.map_cons, List.sum_cons, ih]
      ring
    · simp only [List.map_cons, List.sum_cons]

theorem sum_map_sortBy {α : Type} (le : α → α → Bool) (f : α → ℚ) (l : List α) :
    ((sortBy le l).map f).sum = (l.map f).sum := by
  suffices h : ∀ (l acc : List α),
      ((l.foldl (fun acc x => insertBy le x acc) acc).map f).sum =
        (acc.map f).sum + (l.map f).sum by
    simpa using h l []
  intro l
  induction l with
  | nil => simp
  | cons y ys ih =>
    intro acc
    rw [List.foldl_cons, ih, sum_map_insertBy]
    simp only [List.map_cons, List.sum_cons]
    ring

theorem init_balances_sum (strategy : Strategy) (debts : List DebtInput) :
    ((((sortDebts strategy debts).map fun d => (d, d.balance)).map fun p => p.2).sum) =
      (debts.map DebtInput.balance).sum := by
  rw [List.map_map, sortDebts, sum_map_sortBy]
  rfl

/-- C2 (amended): (1) every simulated month satisfies
`totalPayment = totalInterest + Σ principal`; (2) provided every debt's
minimum payment covers its initial monthly interest
(`balance * rate/100/12 ≤ minimum`), `totalBalance` is non-increasing
month-over-month; (3) the first month's `totalBalance` is at most the sum of
the input balances plus that month's interest minus payments, up to the 0.01
overshoot the extra-payment rule allows.  (Without the minimum-covers-interest
hypothesis, `totalBalance` can grow; without the 0.01 slack, the first-month
bound can fail by the overshoot.) -/
theorem C2_conservation_and_balance (debts : List DebtInput) (strategy : Strategy)
    (extraMonthly : ℚ) (hv : ValidDebts debts) (he : 0 ≤ extraMonthly) :
    (∀ pm ∈ (calculatePayoff debts strategy extraMonthly).schedule,
      pm.totalPayment = pm.totalInterest + (pm.debts.map MonthEntry.principal).sum) ∧
    ((∀ d ∈ debts, d.balance * (d.rate / 100 / 12) ≤ d.minimum) →
      List.Chain' (fun a b => b.totalBalance ≤ a.totalBalance)
        (calculatePayoff debts strategy extraMonthly).schedule) ∧
    (∀ pm ∈ (calculatePayoff debts strategy extraMonthly).schedule, pm.month = 1 →
      pm.totalBalance ≤ (debts.map DebtInput.balance).sum +
        pm.totalInterest - pm.totalPayment + 1/100) := by
  refine ⟨?_, ?_, ?_⟩
  · exact simGo_conservation extraMonthly 360 0
      ((sortDebts strategy debts).map fun d => (d, d.balance)) [] [] 0 0
      fun pm hpm => absurd hpm (List.not_mem_nil pm)
  · intro hmin
    refine simGo_antitone extraMonthly 360 0
      ((sortDebts strategy debts).map fun d => (d, d.balance)) [] [] 0 0 ?_
      List.chain'_nil ?_
    · intro p hp
      simp only [List.mem_map] at hp
      obtain ⟨d, hd, rfl⟩ := hp
      have hdd := (mem_sortDebts strategy debts d).1 hd
      exact ⟨(hv d hdd).1, (hv d hdd).2.1, hmin d hdd⟩
    · intro last hl
      simp at hl
  · set st0 := (sortDebts strategy debts).map fun d => (d, d.balance) with hst0
    intro pm hpm h1
    by_cases hemp : (st0.filter fun p => 1/100 < p.2).isEmpty = true
    · have hstop : simGo extraMonthly 360 0 st0 [] [] 0 0 =
          ⟨0, 0, 0, [], []⟩ := simGo_stop extraMonthly 359 0 st0 [] [] 0 0 hemp
      have hsch : (calculatePayoff debts strategy extraMonthly).schedule = [] := by
        show (simGo extraMonthly 360 0 st0 [] [] 0 0).schedule = []
        rw [hstop]
      rw [hsch] at hpm
      exact absurd hpm (List.not_mem_nil pm)
    · have hcont : simGo extraMonthly 360 0 st0 [] [] 0 0 =
          simGo extraMonthly 359 1
            (monthStep (extraMonthly + freedMinimums st0) st0).1
            ([] ++ [⟨1, (monthStep (extraMonthly + freedMinimums st0) st0).2,
              ((monthStep (extraMonthly + freedMinimums st0) st0).1.map fun p => p.2).sum,
              ((monthStep (extraMonthly + freedMinimums st0) st0).2.map
                MonthEntry.payment).sum,
              ((monthStep (extraMonthly + freedMinimums st0) st0).2.map
                MonthEntry.interest).sum⟩])
            (newPayoffs 1 [] (monthStep (extraMonthly + freedMinimums st0) st0).2)
            (0 + ((monthStep (extraMonthly + freedMinimums st0) st0).2.map
              MonthEntry.payment).sum)
            (0 + ((monthStep (extraMonthly + freedMinimums st0) st0).2.map
              MonthEntry.interest).sum) :=
        simGo_cont extraMonthly 359 0 st0 [] [] 0 0 hemp
      have hpm' : pm ∈ (simGo extraMonthly 359 1
          (monthStep (extraMonthly + freedMinimums st0) st0).1
          ([] ++ [⟨1, (monthStep (extraMonthly + freedMinimums st0) st0).2,
            ((monthStep (extraMonthly + freedMinimums st0) st0).1.map fun p => p.2).sum,
            ((monthStep (extraMonthly + freedMinimums st0) st0).2.map
              MonthEntry.payment).sum,
            ((monthStep (extraMonthly + freedMinimums st0) st0).2.map
              MonthEntry.interest).sum⟩])
          (newPayoffs 1 [] (monthStep (extraMonthly + freedMinimums st0) st0).2)
          (0 + ((monthStep (extraMonthly + freedMinimums st0) st0).2.map
            MonthEntry.payment).sum)
          (0 + ((monthStep (extraMonthly + freedMinimums st0) st0).2.map
            MonthEntry.interest).sum)).schedule := by
        have hceq : (calculatePayoff debts strategy extraMonthly).schedule =
            (simGo extraMonthly 360 0 st0 [] [] 0 0).schedule := rfl
        rw [hceq, hcont] at hpm
        exact hpm
      have hmem := simGo_month1_mem extraMonthly 359 1 _ _ _ _ _ (le_refl 1) pm hpm' h1
      rcases List.mem_singleton.1 (by simpa using hmem) with rfl
      dsimp only
      have hle := monthStep_sum_le (extraMonthly + freedMinimums st0) st0
      have hsum0 : (st0.map fun p => p.2).sum = (debts.map DebtInput.balance).sum := by
        rw [hst0]
        exact init_balances_sum strategy debts
      linarith

/-- Witness for C2 at a concrete input whose minimum payment covers the
initial interest. -/
theorem C2_conservation_and_balance_witness :
    (ValidDebts [⟨"a", "a", 100, 10, 20⟩] ∧ (0 : ℚ) ≤ 5 ∧
      ∀ d ∈ ([⟨"a", "a", 100, 10, 20⟩] : List DebtInput),
        d.balance * (d.rate / 100 / 12) ≤ d.minimum) ∧
    ((∀ pm ∈ (calculatePayoff [⟨"a", "a", 100, 10, 20⟩] Strategy.avalanche 5).schedule,
      pm.totalPayment = pm.totalInterest + (pm.debts.map MonthEntry.principal).sum) ∧
    List.Chain' (fun a b => b.totalBalance ≤ a.totalBalance)
      (calculatePayoff [⟨"a", "a", 100, 10, 20⟩] Strategy.avalanche 5).schedule ∧
    (∀ pm ∈ (calculatePayoff [⟨"a", "a", 100, 10, 20⟩] Strategy.avalanche 5).schedule,
      pm.month = 1 →
      pm.totalBalance ≤ (([⟨"a", "a", 100, 10, 20⟩] : List DebtInput).map
        DebtInput.balance).sum + pm.totalInterest - pm.totalPayment + 1/100)) := by
  have hmin : ∀ d ∈ ([⟨"a", "a", 100, 10, 20⟩] : List DebtInput),
      d.balance * (d.rate / 100 / 12) ≤ d.minimum := by
    intro d hd
    rcases List.mem_singleton.1 hd with rfl
    norm_num
  have h := C2_conservation_and_balance [⟨"a", "a", 100, 10, 20⟩] Strategy.avalanche 5
    (by decide) (by norm_num)
  exact ⟨⟨by decide, by norm_num, hmin⟩, h.1, h.2.1 hmin, h.2.2⟩

/-- Counterexample to C2 as stated, on two valid inputs.  First, a debt with
minimum 0 and positive rate: `totalBalance` rises from 1010 in month 1 to
1020.1 in month 2, refuting the claimed monotone decrease.  Second, a debt of
balance 100 with minimum 0 and extra payment 101: the extra-payment rule
overshoots by 0.01, so the first month's `totalBalance` (= 0) exceeds the sum
of input balances plus interest minus payments (= −0.01), refuting the
claimed first-month bound. -/
theorem C2_counterexample :
    ((calculatePayoff [⟨"d1", "loan", 1000, 12, 0⟩] Strategy.avalanche 0).schedule[0]?.map
        PayoffMonth.totalBalance = some 1010 ∧
      (calculatePayoff [⟨"d1", "loan", 1000, 12, 0⟩] Strategy.avalanche 0).schedule[1]?.map
        PayoffMonth.totalBalance = some (10201/10) ∧
      ¬ ((10201/10 : ℚ) ≤ 1010)) ∧
    ((calculatePayoff [⟨"a", "a", 100, 0, 0⟩] Strategy.avalanche 101).schedule[0]?.map
        (fun pm => (pm.totalBalance, pm.totalInterest, pm.totalPayment)) =
        some (0, 0, 10001/100) ∧
      ¬ ((0 : ℚ) ≤ 100 + 0 - 10001/100)) := by
  constructor
  · have hcalc : (calculatePayoff [⟨"d1", "loan", 1000, 12, 0⟩] Strategy.avalanche 0).schedule
        = (simGo 0 360 0 [(⟨"d1", "loan", 1000, 12, 0⟩, 1000)] [] [] 0 0).schedule := rfl
    have h1 : simGo 0 360 0 [(⟨"d1", "loan", 1000, 12, 0⟩, 1000)] [] [] 0 0
        = simGo 0 359 1 [(⟨"d1", "loan", 1000, 12, 0⟩, 1010)]
            [⟨1, [⟨"d1", "loan", 1010, 0, 10, -10⟩], 1010, 0, 10⟩] [] 0 10 := by
      refine Eq.trans (simGo_cont 0 359 0 _ _ _ _ _ ?_) ?_
      · norm_num [List.filter_cons]
      · norm_num [monthStep, freedMinimums, newPayoffs, List.filter_cons, min_def, max_def]
    have h2 : simGo 0 359 1 [(⟨"d1", "loan", 1000, 12, 0⟩, 1010)]
          [⟨1, [⟨"d1", "loan", 1010, 0, 10, -10⟩], 1010, 0, 10⟩] [] 0 10
        = simGo 0 358 2 [(⟨"d1", "loan", 1000, 12, 0⟩, 10201/10)]
            [⟨1, [⟨"d1", "loan", 1010, 0, 10, -10⟩], 1010, 0, 10⟩,
             ⟨2, [⟨"d1", "loan", 10201/10, 0, 101/10, -(101/10)⟩], 10201/10, 0, 101/10⟩]
            [] 0 (201/10) := by
      refine Eq.trans (simGo_cont 0 358 1 _ _ _ _ _ ?_) ?_
      · norm_num [List.filter_cons]
      · norm_num [monthStep, freedMinimums, newPayoffs, List.filter_cons, min_def, max_def]
    obtain ⟨rest, hr⟩ := simGo_schedule_prefix 0 358 2
      [(⟨"d1", "loan", 1000, 12, 0⟩, 10201/10)]
      [⟨1, [⟨"d1", "loan", 1010, 0, 10, -10⟩], 1010, 0, 10⟩,
       ⟨2, [⟨"d1", "loan", 10201/10, 0, 101/10, -(101/10)⟩], 10201/10, 0, 101/10⟩]
      [] 0 (201/10)
    rw [hcalc, h1, h2, hr]
    refine ⟨?_, ?_, by norm_num⟩
    · rw [List.cons_append, List.getElem?_cons_zero]
      rfl
    · rw [List.cons_append, List.getElem?_cons_succ, List.singleton_append,
        List.getElem?_cons_zero]
      rfl
  · have hcalc : (calculatePayoff [⟨"a", "a", 100, 0, 0⟩] Strategy.avalanche 101).schedule
        = (simGo 101 360 0 [(⟨"a", "a", 100, 0, 0⟩, 100)] [] [] 0 0).schedule := rfl
    have h1 : simGo 101 360 0 [(⟨"a", "a", 100, 0, 0⟩, 100)] [] [] 0 0
        = simGo 101 359 1 [(⟨"a", "a", 100, 0, 0⟩, 0)]
            [⟨1, [⟨"a", "a", 0, 10001/100, 0, 10001/100⟩], 0, 10001/100, 0⟩]
            [⟨"a", "a", 1⟩] (10001/100) 0 := by
      refine Eq.trans (simGo_cont 101 359 0 _ _ _ _ _ ?_) ?_
      · norm_num [List.filter_cons]
      · norm_num [monthStep, freedMinimums, newPayoffs, List.filter_cons, List.find?,
          min_def, max_def]
    obtain ⟨rest, hr⟩ := simGo_schedule_prefix 101 359 1
      [(⟨"a", "a", 100, 0, 0⟩, 0)]
      [⟨1, [⟨"a", "a", 0, 10001/100, 0, 10001/100⟩], 0, 10001/100, 0⟩]
      [⟨"a", "a", 1⟩] (10001/100) 0
    rw [hcalc, h1, hr]
    refine ⟨?_, by norm_num⟩
    rw [List.singleton_append, List.getElem?_cons_zero]
    rfl

theorem simGo_months_acc (e : ℚ) (fuel : ℕ) :
    ∀ (month : ℕ) (st : List (DebtInput × ℚ)) (a₁ : List PayoffMonth)
      (o₁ : List PayoffEntry) (t₁ i₁ : ℚ) (a₂ : List PayoffMonth)
      (o₂ : List PayoffEntry) (t₂ i₂ : ℚ),
      (simGo e fuel month st a₁ o₁ t₁ i₁).months =
        (simGo e fuel month st a₂ o₂ t₂ i₂).months := by
  induction fuel with
  | zero =>
    intro month st a₁ o₁ t₁ i₁ a₂ o₂ t₂ i₂
    rw [simGo, simGo]
  | succ fuel ih =>
    intro month st a₁ o₁ t₁ i₁ a₂ o₂ t₂ i₂
    by_cases h : (st.filter fun p => 1/100 < p.2).isEmpty = true
    · rw [simGo_stop _ _ _ _ _ _ _ _ h, simGo_stop _ _ _ _ _ _ _ _ h]
    · rw [simGo_cont _ _ _ _ _ _ _ _ h, simGo_cont _ _ _ _ _ _ _ _ h]
      exact ih _ _ _ _ _ _ _ _ _ _

theorem simGo_months_cont (e : ℚ) (fuel month : ℕ) (st : List (DebtInput × ℚ))
    (a : List PayoffMonth) (o : List PayoffEntry) (tp ti : ℚ)
    (h : (st.filter fun p => 1/100 < p.2).isEmpty = false) :
    (simGo e (fuel + 1) month st a o tp ti).months =
      (simGo e fuel (month + 1) (monthStep (e + freedMinimums st) st).1
        [] [] 0 0).months := by
  rw [simGo_cont _ _ _ _ _ _ _ _ (by rw [h]; exact Bool.false_ne_true)]
  exact simGo_months_acc _ _ _ _ _ _ _ _ _ _ _ _

theorem simGo_months_stop (e : ℚ) (fuel month : ℕ) (st : List (DebtInput × ℚ))
    (a : List PayoffMonth) (o : List PayoffEntry) (tp ti : ℚ)
    (h : (st.filter fun p => 1/100 < p.2).isEmpty = true) :
    (simGo e (fuel + 1) month st a o tp ti).months = month := by
  rw [simGo_stop _ _ _ _ _ _ _ _ h]

theorem isEmpty_filter_alive_cons (p : DebtInput × ℚ) (l : List (DebtInput × ℚ))
    (h : 1/100 < p.2) :
    ((p :: l).filter fun r => 1/100 < r.2).isEmpty = false := by
  rw [List.filter_cons, if_pos (by simpa using h)]
  rfl

theorem isEmpty_filter_dead_cons (p : DebtInput × ℚ) (l : List (DebtInput × ℚ))
    (h : p.2 ≤ 1/100) :
    ((p :: l).filter fun r => 1/100 < r.2).isEmpty =
      (l.filter fun r => 1/100 < r.2).isEmpty := by
  rw [List.filter_cons, if_neg (by simpa using not_lt.mpr h)]

/-- Swap lemma: with `extraMonthly = 0`, running the loop on a two-debt state
gives the same `months` regardless of the order of the two debts.  While both
debts are outstanding there are no freed minimums, so the budget is 0 and each
debt evolves independently; once one is paid off, the unique outstanding debt
is the extra-budget target under either order. -/
theorem simGo_swap_months (fuel : ℕ) :
    ∀ (month : ℕ) (p q : DebtInput × ℚ) (a₁ : List PayoffMonth)
      (o₁ : List PayoffEntry) (t₁ i₁ : ℚ) (a₂ : List PayoffMonth)
      (o₂ : List PayoffEntry) (t₂ i₂ : ℚ),
      (simGo 0 fuel month [p, q] a₁ o₁ t₁ i₁).months =
        (simGo 0 fuel month [q, p] a₂ o₂ t₂ i₂).months := by
  induction fuel with
  | zero =>
    intro month p q a₁ o₁ t₁ i₁ a₂ o₂ t₂ i₂
    rw [simGo, simGo]
  | succ fuel ih =>
    intro month p q a₁ o₁ t₁ i₁ a₂ o₂ t₂ i₂
    obtain ⟨dp, bp⟩ := p
    obtain ⟨dq, bq⟩ := q
    have hfreed : freedMinimums [(dp, bp), (dq, bq)] = freedMinimums [(dq, bq), (dp, bp)] := by
      rw [freedMinimums_cons, freedMinimums_cons, freedMinimums_cons, freedMinimums_cons]
      ring
    by_cases hp : bp ≤ 1/100 <;> by_cases hq : bq ≤ 1/100
    · -- both paid off: the loop stops under either order
      have h1 : (([(dp, bp), (dq, bq)] :
          List (DebtInput × ℚ)).filter fun r => 1/100 < r.2).isEmpty = true := by
        rw [isEmpty_filter_dead_cons _ _ hp, isEmpty_filter_dead_cons _ _ hq]
        rfl
      have h2 : (([(dq, bq), (dp, bp)] :
          List (DebtInput × ℚ)).filter fun r => 1/100 < r.2).isEmpty = true := by
        rw [isEmpty_filter_dead_cons _ _ hq, isEmpty_filter_dead_cons _ _ hp]
        rfl
      rw [simGo_months_stop _ _ _ _ _ _ _ _ h1, simGo_months_stop _ _ _ _ _ _ _ _ h2]
    · -- p paid off, q outstanding
      have h1 : (([(dp, bp), (dq, bq)] :
          List (DebtInput × ℚ)).filter fun r => 1/100 < r.2).isEmpty = false := by
        rw [isEmpty_filter_dead_cons _ _ hp, isEmpty_filter_alive_cons _ _ (not_le.1 hq)]
      have h2 : (([(dq, bq), (dp, bp)] :
          List (DebtInput × ℚ)).filter fun r => 1/100 < r.2).isEmpty = false := by
        rw [isEmpty_filter_alive_cons _ _ (not_le.1 hq)]
      rw [simGo_months_cont _ _ _ _ _ _ _ _ h1, simGo_months_cont _ _ _ _ _ _ _ _ h2,
        hfreed]
      rw [monthStep_dead_cons _ _ _ _ hp, monthStep_alive_cons _ _ _ _ hq,
        monthStep_alive_cons _ _ _ _ hq, monthStep_dead_cons _ _ _ _ hp]
      exact ih _ _ _ _ _ _ _ _ _ _ _
    · -- q paid off, p outstanding
      have h1 : (([(dp, bp), (dq, bq)] :
          List (DebtInput × ℚ)).filter fun r => 1/100 < r.2).isEmpty = false := by
        rw [isEmpty_filter_alive_cons _ _ (not_le.1 hp)]
      have h2 : (([(dq, bq), (dp, bp)] :
          List (DebtInput × ℚ)).filter fun r => 1/100 < r.2).isEmpty = false := by
        rw [isEmpty_filter_dead_cons _ _ hq, isEmpty_filter_alive_cons _ _ (not_le.1 hp)]
      rw [simGo_months_cont _ _ _ _ _ _ _ _ h1, simGo_months_cont _ _ _ _ _ _ _ _ h2,
        hfreed]
      rw [monthStep_alive_cons _ _ _ _ hp, monthStep_dead_cons _ _ _ _ hq,
        monthStep_dead_cons _ _ _ _ hq, monthStep_alive_cons _ _ _ _ hp]
      exact ih _ _ _ _ _ _ _ _ _ _ _
    · -- both outstanding: no freed minimums, budget 0, independent updates
      have h1 : (([(dp, bp), (dq, bq)] :
          List (DebtInput × ℚ)).filter fun r => 1/100 < r.2).isEmpty = false := by
        rw [isEmpty_filter_alive_cons _ _ (not_le.1 hp)]
      have h2 : (([(dq, bq), (dp, bp)] :
          List (DebtInput × ℚ)).filter fun r => 1/100 < r.2).isEmpty = false := by
        rw [isEmpty_filter_alive_cons _ _ (not_le.1 hq)]
      have hf0 : freedMinimums [(dp, bp), (dq, bq)] = 0 := by
        rw [freedMinimums_cons, freedMinimums_cons, if_neg hp, if_neg hq]
        rw [freedMinimums]
        simp
      have hf0' : freedMinimums [(dq, bq), (dp, bp)] = 0 := by
        rw [← hfreed, hf0]
      rw [simGo_months_cont _ _ _ _ _ _ _ _ h1, simGo_months_cont _ _ _ _ _ _ _ _ h2,
        hf0, hf0', add_zero]
      rw [monthStep_alive_cons _ _ _ _ hp, monthStep_alive_cons _ _ _ _ hq]
      have hz : (if (0 : ℚ) < 0 then (0 : ℚ) else 0) = 0 := ite_self 0
      rw [hz, monthStep_alive_cons _ _ _ _ hq, monthStep_alive_cons _ _ _ _ hp]
      exact ih _ _ _ _ _ _ _ _ _ _ _

/-- C4 (amended): with `extraMonthly = 0` the avalanche and snowball runs pay
off in the same number of months for lists of at most two debts.  (With three
or more debts the freed-minimum rollover is directed by the strategy order and
the claim fails.) -/
theorem C4_two_debt_equal_months (debts : List DebtInput) (hne : debts ≠ [])
    (hlen : debts.length ≤ 2) (hv : ValidDebts debts) :
    (calculatePayoff debts Strategy.avalanche 0).months =
      (calculatePayoff debts Strategy.snowball 0).months := by
  match debts with
  | [] => exact absurd rfl hne
  | [d] => rfl
  | [d₁, d₂] =>
    have havalanche : sortDebts Strategy.avalanche [d₁, d₂] =
        if d₂.rate ≤ d₁.rate then [d₁, d₂] else [d₂, d₁] := by
      rw [sortDebts, sortBy]
      simp only [List.foldl_cons, List.foldl_nil, insertBy]
      split
      next hc =>
        rw [if_pos (by simpa using hc)]
      next hc =>
        rw [if_neg (by simpa using hc)]
    have hsnowball : sortDebts Strategy.snowball [d₁, d₂] =
        if d₁.balance ≤ d₂.balance then [d₁, d₂] else [d₂, d₁] := by
      rw [sortDebts, sortBy]
      simp only [List.foldl_cons, List.foldl_nil, insertBy]
      split
      next hc =>
        rw [if_pos (by simpa using hc)]
      next hc =>
        rw [if_neg (by simpa using hc)]
    have ha : (calculatePayoff [d₁, d₂] Strategy.avalanche 0).months =
        (simGo 0 360 0 ((sortDebts Strategy.avalanche [d₁, d₂]).map
          fun d => (d, d.balance)) [] [] 0 0).months := rfl
    have hs : (calculatePayoff [d₁, d₂] Strategy.snowball 0).months =
        (simGo 0 360 0 ((sortDebts Strategy.snowball [d₁, d₂]).map
          fun d => (d, d.balance)) [] [] 0 0).months := rfl
    rw [ha, hs, havalanche, hsnowball]
    by_cases h₁ : d₂.rate ≤ d₁.rate <;> by_cases h₂ : d₁.balance ≤ d₂.balance
    · rw [if_pos h₁, if_pos h₂]
    · rw [if_pos h₁, if_neg h₂]
      exact simGo_swap_months 360 0 (d₁, d₁.balance) (d₂, d₂.balance) [] [] 0 0 [] [] 0 0
    · rw [if_neg h₁, if_pos h₂]
      exact simGo_swap_months 360 0 (d₂, d₂.balance) (d₁, d₁.balance) [] [] 0 0 [] [] 0 0
    · rw [if_neg h₁, if_neg h₂]

/-- Witness for C4 at a concrete two-debt input. -/
theorem C4_two_debt_equal_months_witness :
    (([⟨"a", "a", 100, 10, 20⟩, ⟨"b", "b", 50, 5, 10⟩] : List DebtInput) ≠ [] ∧
      ([⟨"a", "a", 100, 10, 20⟩, ⟨"b", "b", 50, 5, 10⟩] : List DebtInput).length ≤ 2 ∧
      ValidDebts [⟨"a", "a", 100, 10, 20⟩, ⟨"b", "b", 50, 5, 10⟩]) ∧
    (calculatePayoff [⟨"a", "a", 100, 10, 20⟩, ⟨"b", "b", 50, 5, 10⟩]
        Strategy.avalanche 0).months =
      (calculatePayoff [⟨"a", "a", 100, 10, 20⟩, ⟨"b", "b", 50, 5, 10⟩]
        Strategy.snowball 0).months :=
  ⟨⟨by decide, by norm_num, by decide⟩,
    C4_two_debt_equal_months [⟨"a", "a", 100, 10, 20⟩, ⟨"b", "b", 50, 5, 10⟩]
      (by decide) (by norm_num) (by decide)⟩

/-- Counterexample to C4 as stated: a valid three-debt list where avalanche
pays off in 5 months but snowball needs 6.  Debt z (balance 50, minimum 50)
pays off in month 1; the freed minimum then rolls toward debt x (rate 96)
under avalanche but toward debt y (smallest balance) under snowball, changing
the total payoff time. -/
theorem C4_counterexample :
    (calculatePayoff [⟨"x", "x", 200, 96, 16⟩, ⟨"y", "y", 30, 0, 6⟩,
        ⟨"z", "z", 50, 0, 50⟩] Strategy.avalanche 0).months = 5 ∧
    (calculatePayoff [⟨"x", "x", 200, 96, 16⟩, ⟨"y", "y", 30, 0, 6⟩,
        ⟨"z", "z", 50, 0, 50⟩] Strategy.snowball 0).months = 6 ∧
    (5 : ℕ) ≠ 6 := by
  refine ⟨?_, ?_, by norm_num⟩
  · norm_num [calculatePayoff, sortDebts, sortBy, insertBy, simGo_months_cont,
      simGo_months_stop, monthStep, freedMinimums, List.filter_cons, min_def, max_def]
  · norm_num [calculatePayoff, sortDebts, sortBy, insertBy, simGo_months_cont,
      simGo_months_stop, monthStep, freedMinimums, List.filter_cons, min_def, max_def]

theorem forall₂_dominates_refl (st : List (DebtInput × ℚ)) :
    List.Forall₂ Dominates st st := by
  induction st with
  | nil => exact List.Forall₂.nil
  | cons p l ih => exact List.Forall₂.cons ⟨rfl, Or.inl (le_refl _)⟩ ih

theorem budget_step_le (eb₁ eb₂ : ℚ) (h0 : 0 ≤ eb₁) (h12 : eb₁ ≤ eb₂) :
    0 ≤ (if 0 < eb₁ then 0 else eb₁) ∧
      (if 0 < eb₁ then 0 else eb₁) ≤ (if 0 < eb₂ then 0 else eb₂) := by
  constructor
  · split
    next => exact le_refl 0
    next => exact h0
  · split
    next h1 =>
      split
      next => exact le_refl 0
      next h2 => exact absurd (lt_of_lt_of_le h1 h12) h2
    next h1 =>
      split
      next => exact not_lt.1 h1
      next => exact h12

theorem budget_step_le_self (eb : ℚ) (h : 0 ≤ eb) :
    (if 0 < eb then 0 else eb) ≤ eb := by
  split
  · exact h
  · exact le_refl eb

/-- Monotonicity of one alive debt's end-of-month balance: a smaller starting
balance and a larger extra budget give a smaller (or equal) new balance. -/
theorem payAmount_newBal_mono (d : DebtInput) (b₁ b₂ eb₁ eb₂ : ℚ)
    (hr : 0 ≤ d.rate) (hb : b₂ ≤ b₁) (he : eb₁ ≤ eb₂) :
    max 0 (b₂ + b₂ * (d.rate / 100 / 12) -
        payAmount d.minimum (b₂ + b₂ * (d.rate / 100 / 12)) eb₂) ≤
      max 0 (b₁ + b₁ * (d.rate / 100 / 12) -
        payAmount d.minimum (b₁ + b₁ * (d.rate / 100 / 12)) eb₁) := by
  rw [payAmount_newBal, payAmount_newBal]
  have hr' : (0:ℚ) ≤ d.rate / 100 / 12 :=
    div_nonneg (div_nonneg hr (by norm_num)) (by norm_num)
  have hx : b₂ + b₂ * (d.rate / 100 / 12) ≤ b₁ + b₁ * (d.rate / 100 / 12) := by
    have := mul_le_mul_of_nonneg_right hb hr'
    linarith
  have h1 : max 0 (b₂ + b₂ * (d.rate / 100 / 12) - d.minimum) ≤
      max 0 (b₁ + b₁ * (d.rate / 100 / 12) - d.minimum) :=
    max_le_max (le_refl 0) (by linarith)
  have h2 : max eb₁ 0 ≤ max eb₂ 0 := max_le_max he (le_refl 0)
  exact max_le_max (le_refl 0) (by linarith)

/-- `monthStep` preserves the domination relation between the states of two
runs, provided the second run's extra budget is at least the first run's. -/
theorem monthStep_dominates {st₁ st₂ : List (DebtInput × ℚ)}
    (hdom : List.Forall₂ Dominates st₁ st₂) :
    StOK st₁ → ∀ (eb₁ eb₂ : ℚ), 0 ≤ eb₁ → eb₁ ≤ eb₂ →
      List.Forall₂ Dominates (monthStep eb₁ st₁).1 (monthStep eb₂ st₂).1 := by
  induction hdom with
  | nil =>
    intro _ eb₁ eb₂ _ _
    exact List.Forall₂.nil
  | @cons p q l₁ l₂ hpq htl ih =>
    obtain ⟨d, b₁⟩ := p
    obtain ⟨d', b₂⟩ := q
    have hdd : d = d' := hpq.1
    subst hdd
    intro hst eb₁ eb₂ h0 h12
    have hd := hst (d, b₁) (List.mem_cons_self _ _)
    have hrest : StOK l₁ := fun r hr => hst r (List.mem_cons_of_mem _ hr)
    by_cases hb₁ : b₁ ≤ 1/100
    · have hb₂ : b₂ ≤ 1/100 := by
        rcases hpq.2 with h' | h'
        · exact le_trans h' hb₁
        · exact h'
      rw [monthStep_dead_cons _ _ _ _ hb₁, monthStep_dead_cons _ _ _ _ hb₂]
      exact List.Forall₂.cons ⟨rfl, hpq.2⟩ (ih hrest eb₁ eb₂ h0 h12)
    · by_cases hb₂ : b₂ ≤ 1/100
      · rw [monthStep_alive_cons _ _ _ _ hb₁, monthStep_dead_cons _ _ _ _ hb₂]
        refine List.Forall₂.cons ⟨rfl, Or.inr hb₂⟩
          (ih hrest _ _ (budget_step_le eb₁ eb₂ h0 h12).1 ?_)
        exact le_trans (budget_step_le eb₁ eb₂ h0 h12).2
          (budget_step_le_self eb₂ (le_trans h0 h12))
      · have hb : b₂ ≤ b₁ := hpq.2.resolve_right hb₂
        rw [monthStep_alive_cons _ _ _ _ hb₁, monthStep_alive_cons _ _ _ _ hb₂]
        exact List.Forall₂.cons
          ⟨rfl, Or.inl (payAmount_newBal_mono d b₁ b₂ eb₁ eb₂ hd.1 hb h12)⟩
          (ih hrest _ _ (budget_step_le eb₁ eb₂ h0 h12).1
            (budget_step_le eb₁ eb₂ h0 h12).2)

/-- If the first run's state is fully paid off, so is the second run's. -/
theorem dominates_isEmpty {st₁ st₂ : List (DebtInput × ℚ)}
    (hdom : List.Forall₂ Dominates st₁ st₂) :
    (st₁.filter fun p => 1/100 < p.2).isEmpty = true →
      (st₂.filter fun p => 1/100 < p.2).isEmpty = true := by
  induction hdom with
  | nil => exact fun h => h
  | @cons p q l₁ l₂ hpq htl ih =>
    intro h
    by_cases hp : (1:ℚ)/100 < p.2
    · rw [isEmpty_filter_alive_cons _ _ hp] at h
      exact absurd h Bool.false_ne_true
    · have hp' : p.2 ≤ 1/100 := not_lt.1 hp
      have hq : q.2 ≤ 1/100 := by
        rcases hpq.2 with h' | h'
        · exact le_trans h' hp'
        · exact h'
      rw [isEmpty_filter_dead_cons _ _ hp'] at h
      rw [isEmpty_filter_dead_cons _ _ hq]
      exact ih h

/-- The freed minimums of the dominated (further-along) run are at least those
of the dominating run. -/
theorem freedMinimums_le_of_dominates {st₁ st₂ : List (DebtInput × ℚ)}
    (hdom : List.Forall₂ Dominates st₁ st₂) :
    StOK st₁ → freedMinimums st₁ ≤ freedMinimums st₂ := by
  induction hdom with
  | nil => exact fun _ => le_refl _
  | @cons p q l₁ l₂ hpq htl ih =>
    intro hst
    have hp := hst p (List.mem_cons_self _ _)
    have hrest : StOK l₁ := fun r hr => hst r (List.mem_cons_of_mem _ hr)
    rw [freedMinimums_cons, freedMinimums_cons]
    have hhead : (if p.2 ≤ 1/100 then p.1.minimum else 0) ≤
        (if q.2 ≤ 1/100 then q.1.minimum else 0) := by
      by_cases hp2 : p.2 ≤ 1/100
      · have hq2 : q.2 ≤ 1/100 := by
          rcases hpq.2 with h' | h'
          · exact le_trans h' hp2
          · exact h'
        rw [if_pos hp2, if_pos hq2, hpq.1]
      · rw [if_neg hp2]
        by_cases hq2 : q.2 ≤ 1/100
        · rw [if_pos hq2, ← hpq.1]
          exact hp.2.1
        · rw [if_neg hq2]
    exact add_le_add hhead (ih hrest)

/-- The month's total accrued interest is monotone (downward) under
domination: the further-along run accrues at most as much interest, whatever
the two budgets are. -/
theorem monthStep_interest_le_of_dominates {st₁ st₂ : List (DebtInput × ℚ)}
    (hdom : List.Forall₂ Dominates st₁ st₂) :
    StOK st₁ → ∀ (eb₁ eb₂ : ℚ),
      ((monthStep eb₂ st₂).2.map MonthEntry.interest).sum ≤
        ((monthStep eb₁ st₁).2.map MonthEntry.interest).sum := by
  induction hdom with
  | nil =>
    intro _ eb₁ eb₂
    exact le_refl _
  | @cons p q l₁ l₂ hpq htl ih =>
    obtain ⟨d, b₁⟩ := p
    obtain ⟨d', b₂⟩ := q
    have hdd : d = d' := hpq.1
    subst hdd
    intro hst eb₁ eb₂
    have hd := hst (d, b₁) (List.mem_cons_self _ _)
    have hrest : StOK l₁ := fun r hr => hst r (List.mem_cons_of_mem _ hr)
    have hr' : (0:ℚ) ≤ d.rate / 100 / 12 :=
      div_nonneg (div_nonneg hd.1 (by norm_num)) (by norm_num)
    by_cases hb₁ : b₁ ≤ 1/100
    · have hb₂ : b₂ ≤ 1/100 := by
        rcases hpq.2 with h' | h'
        · exact le_trans h' hb₁
        · exact h'
      rw [monthStep_dead_cons _ _ _ _ hb₁, monthStep_dead_cons _ _ _ _ hb₂]
      exact ih hrest eb₁ eb₂
    · by_cases hb₂ : b₂ ≤ 1/100
      · rw [monthStep_alive_cons _ _ _ _ hb₁, monthStep_dead_cons _ _ _ _ hb₂]
        simp only [List.map_cons, List.sum_cons]
        have hh : 0 ≤ b₁ * (d.rate / 100 / 12) := mul_nonneg hd.2.2 hr'
        linarith [ih hrest (if 0 < eb₁ then 0 else eb₁) eb₂]
      · have hb : b₂ ≤ b₁ := hpq.2.resolve_right hb₂
        rw [monthStep_alive_cons _ _ _ _ hb₁, monthStep_alive_cons _ _ _ _ hb₂]
        simp only [List.map_cons, List.sum_cons]
        have hh : b₂ * (d.rate / 100 / 12) ≤ b₁ * (d.rate / 100 / 12) :=
          mul_le_mul_of_nonneg_right hb hr'
        linarith [ih hrest (if 0 < eb₁ then 0 else eb₁) (if 0 < eb₂ then 0 else eb₂)]

/-- The interest accumulator only grows along the simulation loop. -/
theorem simGo_ti_ge (e : ℚ) (he : 0 ≤ e) (fuel : ℕ) :
    ∀ (month : ℕ) (st : List (DebtInput × ℚ)) (a : List PayoffMonth)
      (o : List PayoffEntry) (tp ti : ℚ), StOK st →
      ti ≤ (simGo e fuel month st a o tp ti).totalInterest := by
  induction fuel with
  | zero =>
    intro month st a o tp ti _
    exact le_refl ti
  | succ fuel ih =>
    intro month st a o tp ti hst
    by_cases hstop : (st.filter fun p => 1/100 < p.2).isEmpty = true
    · rw [simGo_stop _ _ _ _ _ _ _ _ hstop]
    · rw [simGo_cont _ _ _ _ _ _ _ _ hstop]
      have hI : 0 ≤ ((monthStep (e + freedMinimums st) st).2.map
          MonthEntry.interest).sum := by
        refine sum_map_nonneg _ _ ?_
        intro x hx
        exact ((monthStep_entries_nonneg _ _ hst) x hx).2.1
      refine le_trans ?_ (ih (month + 1) _ _ _ _ _ (monthStep_StOK _ _ hst))
      linarith

/-- `totalInterest` monotonicity of the loop under domination, with matching
interest accumulators. -/
theorem simGo_ti_mono (e₁ e₂ : ℚ) (h0 : 0 ≤ e₁) (h12 : e₁ ≤ e₂) (fuel : ℕ) :
    ∀ (month : ℕ) (st₁ st₂ : List (DebtInput × ℚ))
      (a₁ : List PayoffMonth) (o₁ : List PayoffEntry) (t₁ : ℚ)
      (a₂ : List PayoffMonth) (o₂ : List PayoffEntry) (t₂ : ℚ) (i₁ i₂ : ℚ),
      StOK st₁ → StOK st₂ → List.Forall₂ Dominates st₁ st₂ → i₂ ≤ i₁ →
      (simGo e₂ fuel month st₂ a₂ o₂ t₂ i₂).totalInterest ≤
        (simGo e₁ fuel month st₁ a₁ o₁ t₁ i₁).totalInterest := by
  induction fuel with
  | zero =>
    intro month st₁ st₂ a₁ o₁ t₁ a₂ o₂ t₂ i₁ i₂ _ _ _ hi
    exact hi
  | succ fuel ih =>
    intro month st₁ st₂ a₁ o₁ t₁ a₂ o₂ t₂ i₁ i₂ h1 h2 hdom hi
    by_cases hstop1 : (st₁.filter fun p => 1/100 < p.2).isEmpty = true
    · have hstop2 := dominates_isEmpty hdom hstop1
      rw [simGo_stop _ _ _ _ _ _ _ _ hstop1, simGo_stop _ _ _ _ _ _ _ _ hstop2]
      exact hi
    · by_cases hstop2 : (st₂.filter fun p => 1/100 < p.2).isEmpty = true
      · rw [simGo_stop _ _ _ _ _ _ _ _ hstop2]
        exact le_trans hi (simGo_ti_ge e₁ h0 (fuel + 1) month st₁ a₁ o₁ t₁ i₁ h1)
      · rw [simGo_cont _ _ _ _ _ _ _ _ hstop1, simGo_cont _ _ _ _ _ _ _ _ hstop2]
        refine ih (month + 1) _ _ _ _ _ _ _ _ _ _ (monthStep_StOK _ _ h1)
          (monthStep_StOK _ _ h2) (monthStep_dominates hdom h1 _ _ ?_ ?_) ?_
        · have := freedMinimums_nonneg st₁ h1
          linarith
        · have := freedMinimums_le_of_dominates hdom h1
          linarith
        · have hI := monthStep_interest_le_of_dominates hdom h1
            (e₁ + freedMinimums st₁) (e₂ + freedMinimums st₂)
          linarith

/-- `months` monotonicity of the loop under domination. -/
theorem simGo_months_mono (e₁ e₂ : ℚ) (h0 : 0 ≤ e₁) (h12 : e₁ ≤ e₂) (fuel : ℕ) :
    ∀ (month : ℕ) (st₁ st₂ : List (DebtInput × ℚ))
      (a₁ : List PayoffMonth) (o₁ : List PayoffEntry) (t₁ i₁ : ℚ)
      (a₂ : List PayoffMonth) (o₂ : List PayoffEntry) (t₂ i₂ : ℚ),
      StOK st₁ → StOK st₂ → List.Forall₂ Dominates st₁ st₂ →
      (simGo e₂ fuel month st₂ a₂ o₂ t₂ i₂).months ≤
        (simGo e₁ fuel month st₁ a₁ o₁ t₁ i₁).months := by
  induction fuel with
  | zero =>
    intro month st₁ st₂ a₁ o₁ t₁ i₁ a₂ o₂ t₂ i₂ _ _ _
    exact le_refl month
  | succ fuel ih =>
    intro month st₁ st₂ a₁ o₁ t₁ i₁ a₂ o₂ t₂ i₂ h1 h2 hdom
    by_cases hstop1 : (st₁.filter fun p => 1/100 < p.2).isEmpty = true
    · have hstop2 := dominates_isEmpty hdom hstop1
      rw [simGo_stop _ _ _ _ _ _ _ _ hstop1, simGo_stop _ _ _ _ _ _ _ _ hstop2]
    · by_cases hstop2 : (st₂.filter fun p => 1/100 < p.2).isEmpty = true
      · rw [simGo_stop _ _ _ _ _ _ _ _ hstop2]
        exact simGo_month_le e₁ (fuel + 1) month st₁ a₁ o₁ t₁ i₁
      · rw [simGo_cont _ _ _ _ _ _ _ _ hstop1, simGo_cont _ _ _ _ _ _ _ _ hstop2]
        refine ih (month + 1) _ _ _ _ _ _ _ _ _ _ (monthStep_StOK _ _ h1)
          (monthStep_StOK _ _ h2) (monthStep_dominates hdom h1 _ _ ?_ ?_)
        · have := freedMinimums_nonneg st₁ h1
          linarith
        · have := freedMinimums_le_of_dominates hdom h1
          linarith

/-- C3: for every valid non-empty debt list, a fixed strategy, and any two
extra payments `0 ≤ e₁ ≤ e₂ ≤ 100000`, running `calculatePayoff` with the
larger extra payment yields at most the `totalInterest` and at most the
`months` of the run with the smaller extra payment. -/
theorem C3_extra_monotone (debts : List DebtInput) (strategy : Strategy)
    (e₁ e₂ : ℚ) (hne : debts ≠ []) (hv : ValidDebts debts)
    (h0 : 0 ≤ e₁) (h12 : e₁ ≤ e₂) (hcap : e₂ ≤ 100000) :
    (calculatePayoff debts strategy e₂).totalInterest ≤
      (calculatePayoff debts strategy e₁).totalInterest ∧
    (calculatePayoff debts strategy e₂).months ≤
      (calculatePayoff debts strategy e₁).months := by
  have hstok := StOK_init strategy debts hv
  have hdom := forall₂_dominates_refl
    ((sortDebts strategy debts).map fun d => (d, d.balance))
  constructor
  · exact simGo_ti_mono e₁ e₂ h0 h12 360 0 _ _ [] [] 0 [] [] 0 0 0
      hstok hstok hdom (le_refl 0)
  · exact simGo_months_mono e₁ e₂ h0 h12 360 0 _ _ [] [] 0 0 [] [] 0 0
      hstok hstok hdom

/-- Witness for C3 at a concrete single-debt input with extras 0 and 50. -/
theorem C3_extra_monotone_witness :
    (([⟨"w", "w", 100, 10, 20⟩] : List DebtInput) ≠ [] ∧
      ValidDebts [⟨"w", "w", 100, 10, 20⟩] ∧
      (0:ℚ) ≤ 0 ∧ (0:ℚ) ≤ 50 ∧ (50:ℚ) ≤ 100000) ∧
    ((calculatePayoff [⟨"w", "w", 100, 10, 20⟩] Strategy.avalanche 50).totalInterest ≤
        (calculatePayoff [⟨"w", "w", 100, 10, 20⟩] Strategy.avalanche 0).totalInterest ∧
      (calculatePayoff [⟨"w", "w", 100, 10, 20⟩] Strategy.avalanche 50).months ≤
        (calculatePayoff [⟨"w", "w", 100, 10, 20⟩] Strategy.avalanche 0).months) :=
  ⟨⟨by decide, by decide, by norm_num, by norm_num, by norm_num⟩,
    C3_extra_monotone [⟨"w", "w", 100, 10, 20⟩] Strategy.avalanche 0 50
      (by decide) (by decide) (by norm_num) (by norm_num) (by norm_num)⟩

theorem lookupBal_cons_eq (i : String) (d : DebtInput) (b : ℚ)
    (rest : List (DebtInput × ℚ)) (h : d.id = i) :
    lookupBal i ((d, b) :: rest) = b := by
  rw [lookupBal, List.find?_cons_of_pos _ (by simpa using h)]

theorem lookupBal_cons_ne (i : String) (d : DebtInput) (b : ℚ)
    (rest : List (DebtInput × ℚ)) (h : ¬ d.id = i) :
    lookupBal i ((d, b) :: rest) = lookupBal i rest := by
  rw [lookupBal, lookupBal, List.find?_cons_of_neg _ (by simpa using h)]

theorem mem_of_getLast?_eq {α : Type} (l : List α) (a : α)
    (h : l.getLast? = some a) : a ∈ l := by
  induction l with
  | nil => exact absurd h (by simp)
  | cons x xs ih =>
    cases xs with
    | nil =>
      have hxa : x = a := by simpa using h
      simp [hxa]
    | cons y ys =>
      rw [List.getLast?_cons_cons] at h
      exact List.mem_cons_of_mem _ (ih h)

theorem insertBy_perm {α : Type} (le : α → α → Bool) (x : α) :
    ∀ (l : List α), List.Perm (insertBy le x l) (x :: l) := by
  intro l
  induction l with
  | nil => exact List.Perm.refl _
  | cons y ys ih =>
    rw [insertBy]
    split
    next => exact List.Perm.trans (List.Perm.cons y ih) (List.Perm.swap x y ys)
    next => exact List.Perm.refl _

theorem foldl_insertBy_perm {α : Type} (le : α → α → Bool) :
    ∀ (l acc : List α),
      List.Perm (l.foldl (fun acc x => insertBy le x acc) acc) (acc ++ l) := by
  intro l
  induction l with
  | nil =>
    intro acc
    rw [List.foldl_nil, List.append_nil]
  | cons x xs ih =>
    intro acc
    rw [List.foldl_cons]
    refine List.Perm.trans (ih (insertBy le x acc)) ?_
    refine List.Perm.trans (List.Perm.append_right xs (insertBy_perm le x acc)) ?_
    exact List.perm_middle.symm

theorem sortBy_perm {α : Type} (le : α → α → Bool) (l : List α) :
    List.Perm (sortBy le l) l := by
  have h := foldl_insertBy_perm le l []
  rw [sortBy]
  simpa using h

theorem sortDebts_perm (strategy : Strategy) (debts : List DebtInput) :
    List.Perm (sortDebts strategy debts) debts := by
  rw [sortDebts]
  exact sortBy_perm _ _

theorem monthStep_entries_id_mem :
    ∀ (st : List (DebtInput × ℚ)) (eb : ℚ), ∀ en ∈ (monthStep eb st).2,
      en.id ∈ st.map fun p => p.1.id := by
  intro st
  induction st with
  | nil =>
    intro eb en hen
    exact absurd hen (List.not_mem_nil en)
  | cons p rest ih =>
    intro eb en hen
    obtain ⟨d, b⟩ := p
    by_cases hb : b ≤ 1/100
    · rw [monthStep_dead_cons _ _ _ _ hb] at hen
      simp only [List.map_cons, List.mem_cons]
      exact Or.inr (ih eb en hen)
    · rw [monthStep_alive_cons _ _ _ _ hb] at hen
      rcases List.mem_cons.1 hen with hhead | htail
      · subst hhead
        simp
      · simp only [List.map_cons, List.mem_cons]
        exact Or.inr (ih _ en htail)

/-- A month's schedule entries, read against the working state when ids are
distinct: each entry belongs to a debt that was outstanding (balance > 0.01)
at the start of the month, and the entry's recorded `balance` is that debt's
working balance at the end of the month. -/
theorem monthStep_entries_lookup :
    ∀ (st : List (DebtInput × ℚ)) (eb : ℚ),
      (st.map fun p => p.1.id).Nodup →
      ∀ en ∈ (monthStep eb st).2,
        1/100 < lookupBal en.id st ∧
        lookupBal en.id (monthStep eb st).1 = en.balance := by
  intro st
  induction st with
  | nil =>
    intro eb _ en hen
    exact absurd hen (List.not_mem_nil en)
  | cons p rest ih =>
    intro eb hnd en hen
    obtain ⟨d, b⟩ := p
    simp only [List.map_cons, List.nodup_cons] at hnd
    obtain ⟨hdid, hnd'⟩ := hnd
    by_cases hb : b ≤ 1/100
    · rw [monthStep_dead_cons _ _ _ _ hb] at hen
      have hrec := ih eb hnd' en hen
      have hne : ¬ d.id = en.id := by
        intro hcon
        exact hdid (by rw [hcon]; exact monthStep_entries_id_mem rest eb en hen)
      constructor
      · rw [lookupBal_cons_ne _ _ _ _ hne]
        exact hrec.1
      · rw [monthStep_dead_cons _ _ _ _ hb]
        dsimp only
        rw [lookupBal_cons_ne _ _ _ _ hne]
        exact hrec.2
    · rw [monthStep_alive_cons _ _ _ _ hb] at hen
      rcases List.mem_cons.1 hen with hhead | htail
      · subst hhead
        constructor
        · dsimp only
          rw [lookupBal_cons_eq _ _ _ _ rfl]
          exact not_le.1 hb
        · rw [monthStep_alive_cons _ _ _ _ hb]
          dsimp only
          rw [lookupBal_cons_eq _ _ _ _ rfl]
      · have hrec := ih (if 0 < eb then 0 else eb) hnd' en htail
        have hne : ¬ d.id = en.id := by
          intro hcon
          apply hdid
          rw [hcon]
          exact monthStep_entries_id_mem rest (if 0 < eb then 0 else eb) en htail
        constructor
        · rw [lookupBal_cons_ne _ _ _ _ hne]
          exact hrec.1
        · rw [monthStep_alive_cons _ _ _ _ hb]
          dsimp only
          rw [lookupBal_cons_ne _ _ _ _ hne]
          exact hrec.2

/-- A paid-off debt's working balance is frozen by `monthStep`. -/
theorem lookupBal_monthStep_dead :
    ∀ (st : List (DebtInput × ℚ)) (eb : ℚ) (i : String),
      lookupBal i st ≤ 1/100 →
      lookupBal i (monthStep eb st).1 = lookupBal i st := by
  intro st
  induction st with
  | nil =>
    intro eb i _
    rfl
  | cons p rest ih =>
    intro eb i hdead
    obtain ⟨d, b⟩ := p
    by_cases hid : d.id = i
    · have hb : b ≤ 1/100 := by
        rw [lookupBal_cons_eq _ _ _ _ hid] at hdead
        exact hdead
      rw [monthStep_dead_cons _ _ _ _ hb]
      dsimp only
      rw [lookupBal_cons_eq _ _ _ _ hid, lookupBal_cons_eq _ _ _ _ hid]
    · rw [lookupBal_cons_ne _ _ _ _ hid] at hdead
      by_cases hb : b ≤ 1/100
      · rw [monthStep_dead_cons _ _ _ _ hb]
        dsimp only
        rw [lookupBal_cons_ne _ _ _ _ hid, lookupBal_cons_ne _ _ _ _ hid]
        exact ih eb i hdead
      · rw [monthStep_alive_cons _ _ _ _ hb]
        dsimp only
        rw [lookupBal_cons_ne _ _ _ _ hid, lookupBal_cons_ne _ _ _ _ hid]
        exact ih _ i hdead

theorem stateAt_ids (e : ℚ) (st0 : List (DebtInput × ℚ)) :
    ∀ (m : ℕ), (stateAt e st0 m).map Prod.fst = st0.map Prod.fst := by
  intro m
  induction m with
  | zero => rfl
  | succ m ih =>
    have hstep : stateAt e st0 (m + 1) =
        (monthStep (e + freedMinimums (stateAt e st0 m)) (stateAt e st0 m)).1 := rfl
    rw [hstep, monthStep_fst_debts, ih]

theorem stateAt_ids_nodup (e : ℚ) (st0 : List (DebtInput × ℚ))
    (hnd : (st0.map fun p => p.1.id).Nodup) (m : ℕ) :
    ((stateAt e st0 m).map fun p => p.1.id).Nodup := by
  have h1 : ((stateAt e st0 m).map fun p => p.1.id) =
      ((stateAt e st0 m).map Prod.fst).map DebtInput.id := by
    rw [List.map_map]
    exact rfl
  have h2 : ((st0.map Prod.fst).map DebtInput.id) = st0.map fun p => p.1.id := by
    rw [List.map_map]
    exact rfl
  rw [h1, stateAt_ids e st0 m, h2]
  exact hnd

/-- Once a debt's working balance is ≤ 0.01, it keeps the same value at every
later month. -/
theorem stateAt_dead_frozen (e : ℚ) (st0 : List (DebtInput × ℚ)) (i : String)
    (m : ℕ) (h : lookupBal i (stateAt e st0 m) ≤ 1/100) :
    ∀ k, lookupBal i (stateAt e st0 (m + k)) = lookupBal i (stateAt e st0 m) := by
  intro k
  induction k with
  | zero => rfl
  | succ k ih =>
    have hd : lookupBal i (stateAt e st0 (m + k)) ≤ 1/100 := by
      rw [ih]
      exact h
    have hstep : stateAt e st0 (m + (k + 1)) =
        (monthStep (e + freedMinimums (stateAt e st0 (m + k)))
          (stateAt e st0 (m + k))).1 := rfl
    rw [hstep, lookupBal_monthStep_dead _ _ _ hd, ih]

theorem range'_one_concat (n : ℕ) :
    List.range' 1 (n + 1) = List.range' 1 n ++ [n + 1] := by
  rw [List.range'_concat]
  simp [Nat.add_comm]

/-- The schedule's `month` fields are `1, 2, …, months` in order. -/
theorem simGo_schedule_months (e : ℚ) (fuel : ℕ) :
    ∀ (month : ℕ) (st : List (DebtInput × ℚ)) (acc : List PayoffMonth)
      (ord : List PayoffEntry) (tp ti : ℚ),
      acc.map PayoffMonth.month = List.range' 1 month →
      (simGo e fuel month st acc ord tp ti).schedule.map PayoffMonth.month =
        List.range' 1 (simGo e fuel month st acc ord tp ti).months := by
  induction fuel with
  | zero =>
    intro month st acc ord tp ti hacc
    exact hacc
  | succ fuel ih =>
    intro month st acc ord tp ti hacc
    by_cases hstop : (st.filter fun p => 1/100 < p.2).isEmpty = true
    · rw [simGo_stop _ _ _ _ _ _ _ _ hstop]
      exact hacc
    · rw [simGo_cont _ _ _ _ _ _ _ _ hstop]
      refine ih (month + 1) _ _ _ _ _ ?_
      rw [List.map_append, hacc, range'_one_concat]
      simp

theorem newPayoffs_nodup (month : ℕ) :
    ∀ (es : List MonthEntry) (acc : List PayoffEntry),
      (acc.map PayoffEntry.id).Nodup →
      ((newPayoffs month acc es).map PayoffEntry.id).Nodup := by
  intro es
  induction es with
  | nil =>
    intro acc h
    exact h
  | cons x xs ih =>
    intro acc h
    rw [newPayoffs]
    split
    next hc =>
      refine ih _ ?_
      rw [List.map_append]
      have hnotin : ∀ p ∈ acc, ¬ p.id = x.id := by
        intro p hp hpe
        have hn := Option.isNone_iff_eq_none.1 hc.2
        exact (List.find?_eq_none.1 hn p hp) (by simpa using hpe)
      refine List.Nodup.append h (List.nodup_singleton _) ?_
      intro a ha hb
      obtain ⟨q, hq, rfl⟩ := List.mem_map.1 ha
      have hqe : q.id = x.id := by simpa using hb
      exact hnotin q hq hqe
    next => exact ih _ h

theorem simGo_order_nodup (e : ℚ) (fuel : ℕ) :
    ∀ (month : ℕ) (st : List (DebtInput × ℚ)) (acc : List PayoffMonth)
      (ord : List PayoffEntry) (tp ti : ℚ),
      (ord.map PayoffEntry.id).Nodup →
      ((simGo e fuel month st acc ord tp ti).order.map PayoffEntry.id).Nodup := by
  induction fuel with
  | zero =>
    intro month st acc ord tp ti h
    exact h
  | succ fuel ih =>
    intro month st acc ord tp ti h
    by_cases hstop : (st.filter fun p => 1/100 < p.2).isEmpty = true
    · rw [simGo_stop _ _ _ _ _ _ _ _ hstop]
      exact h
    · rw [simGo_cont _ _ _ _ _ _ _ _ hstop]
      exact ih _ _ _ _ _ _ (newPayoffs_nodup _ _ _ h)

theorem newPayoffs_months_le (month : ℕ) :
    ∀ (es : List MonthEntry) (acc : List PayoffEntry),
      (∀ p ∈ acc, p.payoffMonth ≤ month) →
      ∀ p ∈ newPayoffs month acc es, p.payoffMonth ≤ month := by
  intro es
  induction es with
  | nil =>
    intro acc h
    exact h
  | cons x xs ih =>
    intro acc h
    rw [newPayoffs]
    split
    next hc =>
      refine ih _ ?_
      intro p hp
      rcases List.mem_append.1 hp with hp' | hp'
      · exact h p hp'
      · have hp2 : p = ⟨x.id, x.name, month⟩ := by simpa using hp'
        simp [hp2]
    next => exact ih _ h

theorem newPayoffs_chain (month : ℕ) :
    ∀ (es : List MonthEntry) (acc : List PayoffEntry),
      (∀ p ∈ acc, p.payoffMonth ≤ month) →
      List.Chain' (fun p q => p.payoffMonth ≤ q.payoffMonth) acc →
      List.Chain' (fun p q => p.payoffMonth ≤ q.payoffMonth)
        (newPayoffs month acc es) := by
  intro es
  induction es with
  | nil =>
    intro acc _ hch
    exact hch
  | cons x xs ih =>
    intro acc hle hch
    rw [newPayoffs]
    split
    next hc =>
      refine ih _ ?_ ?_
      · intro p hp
        rcases List.mem_append.1 hp with hp' | hp'
        · exact hle p hp'
        · have hp2 : p = ⟨x.id, x.name, month⟩ := by simpa using hp'
          simp [hp2]
      · rw [List.chain'_append]
        refine ⟨hch, List.chain'_singleton _, ?_⟩
        intro a ha b hb
        have hb' : ({ id := x.id, name := x.name, payoffMonth := month } :
            PayoffEntry) = b := by simpa using hb
        have ha' : a ∈ acc := by
          cases hlast : acc.getLast? with
          | none =>
            rw [hlast] at ha
            exact absurd ha (by simp)
          | some y =>
            rw [hlast] at ha
            have hay : y = a := by simpa using ha
            rw [← hay]
            exact mem_of_getLast?_eq acc y hlast
        rw [← hb']
        exact hle a ha'
    next => exact ih _ hle hch

theorem simGo_order_chain (e : ℚ) (fuel : ℕ) :
    ∀ (month : ℕ) (st : List (DebtInput × ℚ)) (acc : List PayoffMonth)
      (ord : List PayoffEntry) (tp ti : ℚ),
      (∀ p ∈ ord, p.payoffMonth ≤ month) →
      List.Chain' (fun p q => p.payoffMonth ≤ q.payoffMonth) ord →
      List.Chain' (fun p q => p.payoffMonth ≤ q.payoffMonth)
        (simGo e fuel month st acc ord tp ti).order := by
  induction fuel with
  | zero =>
    intro month st acc ord tp ti _ hch
    exact hch
  | succ fuel ih =>
    intro month st acc ord tp ti hle hch
    by_cases hstop : (st.filter fun p => 1/100 < p.2).isEmpty = true
    · rw [simGo_stop _ _ _ _ _ _ _ _ hstop]
      exact hch
    · rw [simGo_cont _ _ _ _ _ _ _ _ hstop]
      refine ih _ _ _ _ _ _ ?_ ?_
      · refine newPayoffs_months_le _ _ _ ?_
        intro p hp
        exact le_trans (hle p hp) (Nat.le_succ month)
      · refine newPayoffs_chain _ _ _ ?_ hch
        intro p hp
        exact le_trans (hle p hp) (Nat.le_succ month)

theorem mem_newPayoffs (month : ℕ) :
    ∀ (es : List MonthEntry) (acc : List PayoffEntry) (p : PayoffEntry),
      p ∈ newPayoffs month acc es →
      p ∈ acc ∨ ∃ en, en ∈ es ∧ p.id = en.id ∧ p.payoffMonth = month ∧
        en.balance ≤ 1/100 := by
  intro es
  induction es with
  | nil =>
    intro acc p hp
    exact Or.inl hp
  | cons x xs ih =>
    intro acc p hp
    rw [newPayoffs] at hp
    split at hp
    next hc =>
      rcases ih _ p hp with hp' | ⟨en, hen, h1, h2, h3⟩
      · rcases List.mem_append.1 hp' with ha | hb
        · exact Or.inl ha
        · have hp2 : p = ⟨x.id, x.name, month⟩ := by simpa using hb
          refine Or.inr ⟨x, List.mem_cons_self _ _, ?_, ?_, hc.1⟩
          · simp [hp2]
          · simp [hp2]
      · exact Or.inr ⟨en, List.mem_cons_of_mem _ hen, h1, h2, h3⟩
    next =>
      rcases ih _ p hp with hp' | ⟨en, hen, h1, h2, h3⟩
      · exact Or.inl hp'
      · exact Or.inr ⟨en, List.mem_cons_of_mem _ hen, h1, h2, h3⟩

/-- Every payoff-order entry produced by the loop records the first month at
which its debt's working balance reached ≤ 0.01 (ids assumed distinct). -/
theorem simGo_order_firstcross (e : ℚ) (st0 : List (DebtInput × ℚ))
    (hnd : (st0.map fun p => p.1.id).Nodup) (fuel : ℕ) :
    ∀ (month : ℕ) (acc : List PayoffMonth) (ord : List PayoffEntry) (tp ti : ℚ),
      (∀ p ∈ ord, 1 ≤ p.payoffMonth ∧
        lookupBal p.id (stateAt e st0 p.payoffMonth) ≤ 1/100 ∧
        ∀ m < p.payoffMonth, 1/100 < lookupBal p.id (stateAt e st0 m)) →
      ∀ p ∈ (simGo e fuel month (stateAt e st0 month) acc ord tp ti).order,
        1 ≤ p.payoffMonth ∧
        lookupBal p.id (stateAt e st0 p.payoffMonth) ≤ 1/100 ∧
        ∀ m < p.payoffMonth, 1/100 < lookupBal p.id (stateAt e st0 m) := by
  induction fuel with
  | zero =>
    intro month acc ord tp ti hord
    exact hord
  | succ fuel ih =>
    intro month acc ord tp ti hord
    by_cases hstop :
        ((stateAt e st0 month).filter fun p => 1/100 < p.2).isEmpty = true
    · rw [simGo_stop _ _ _ _ _ _ _ _ hstop]
      exact hord
    · rw [simGo_cont _ _ _ _ _ _ _ _ hstop]
      have hstep : (monthStep (e + freedMinimums (stateAt e st0 month))
          (stateAt e st0 month)).1 = stateAt e st0 (month + 1) := rfl
      rw [hstep]
      refine ih (month + 1) _ _ _ _ ?_
      intro p hp
      rcases mem_newPayoffs _ _ _ _ hp with hp' | ⟨en, hen, hpid, hpm, hbal⟩
      · exact hord p hp'
      · have hnds := stateAt_ids_nodup e st0 hnd month
        have hB := monthStep_entries_lookup (stateAt e st0 month)
          (e + freedMinimums (stateAt e st0 month)) hnds en hen
        refine ⟨?_, ?_, ?_⟩
        · rw [hpm]
          exact Nat.le_add_left 1 month
        · rw [hpm, hpid, ← hstep, hB.2]
          exact hbal
        · intro m hm
          rw [hpid]
          rw [hpm] at hm
          by_contra hcon
          push_neg at hcon
          have hfroz := stateAt_dead_frozen e st0 en.id m hcon (month - m)
          have hmm : m + (month - m) = month := by omega
          rw [hmm] at hfroz
          have halive := hB.1
          rw [hfroz] at halive
          exact absurd halive (not_lt.2 hcon)

/-- C10: structure of the payoff result.  The schedule has exactly `months`
entries whose `month` fields are `1, 2, …, months` in order; each debt id
occurs at most once in `debtPayoffOrder`; each order entry's `payoffMonth` is
the first month at which that debt's working balance reached ≤ 0.01 (it is
≥ 1, the balance at `payoffMonth` is ≤ 0.01, and at every earlier month the
balance exceeds 0.01); and the `payoffMonth` values are non-decreasing along
the list.  Debt ids are assumed pairwise distinct, matching the source's
id-keyed `balances` record. -/
theorem C10_result_structure (debts : List DebtInput) (strategy : Strategy)
    (e : ℚ) (hv : ValidDebts debts) (he : 0 ≤ e)
    (hnd : (debts.map DebtInput.id).Nodup) :
    (calculatePayoff debts strategy e).schedule.length =
      (calculatePayoff debts strategy e).months ∧
    (calculatePayoff debts strategy e).schedule.map PayoffMonth.month =
      List.range' 1 (calculatePayoff debts strategy e).months ∧
    ((calculatePayoff debts strategy e).debtPayoffOrder.map PayoffEntry.id).Nodup ∧
    (∀ p ∈ (calculatePayoff debts strategy e).debtPayoffOrder,
      1 ≤ p.payoffMonth ∧
      lookupBal p.id (stateAt e
        ((sortDebts strategy debts).map fun d => (d, d.balance)) p.payoffMonth) ≤ 1/100 ∧
      ∀ m < p.payoffMonth, 1/100 < lookupBal p.id (stateAt e
        ((sortDebts strategy debts).map fun d => (d, d.balance)) m)) ∧
    List.Chain' (fun p q => p.payoffMonth ≤ q.payoffMonth)
      (calculatePayoff debts strategy e).debtPayoffOrder := by
  have hst0nd : ((((sortDebts strategy debts).map fun d => (d, d.balance)).map
      fun p => p.1.id)).Nodup := by
    have h1 : (((sortDebts strategy debts).map fun d => (d, d.balance)).map
        fun p => p.1.id) = (sortDebts strategy debts).map DebtInput.id := by
      rw [List.map_map]
      exact rfl
    have h2 : List.Perm ((sortDebts strategy debts).map DebtInput.id)
        (debts.map DebtInput.id) := (sortDebts_perm strategy debts).map _
    rw [h1]
    exact h2.nodup_iff.2 hnd
  have hmap : (calculatePayoff debts strategy e).schedule.map PayoffMonth.month =
      List.range' 1 (calculatePayoff debts strategy e).months :=
    simGo_schedule_months e 360 0
      ((sortDebts strategy debts).map fun d => (d, d.balance)) [] [] 0 0 rfl
  refine ⟨?_, hmap, ?_, ?_, ?_⟩
  · have hlen := congrArg List.length hmap
    simpa using hlen
  · exact simGo_order_nodup e 360 0
      ((sortDebts strategy debts).map fun d => (d, d.balance)) [] [] 0 0 (by simp)
  · exact simGo_order_firstcross e
      ((sortDebts strategy debts).map fun d => (d, d.balance)) hst0nd 360 0 [] [] 0 0
      (fun p hp => absurd hp (List.not_mem_nil p))
  · exact simGo_order_chain e 360 0
      ((sortDebts strategy debts).map fun d => (d, d.balance)) [] [] 0 0
      (fun p hp => absurd hp (List.not_mem_nil p)) List.chain'_nil

/-- Witness for C10 at a concrete single-debt input. -/
theorem C10_result_structure_witness :
    (ValidDebts [⟨"v", "v", 100, 10, 20⟩] ∧ (0:ℚ) ≤ 0 ∧
      (([⟨"v", "v", 100, 10, 20⟩] : List DebtInput).map DebtInput.id).Nodup) ∧
    ((calculatePayoff [⟨"v", "v", 100, 10, 20⟩] Strategy.avalanche 0).schedule.length =
        (calculatePayoff [⟨"v", "v", 100, 10, 20⟩] Strategy.avalanche 0).months ∧
      (calculatePayoff [⟨"v", "v", 100, 10, 20⟩] Strategy.avalanche 0).schedule.map
          PayoffMonth.month =
        List.range' 1
          (calculatePayoff [⟨"v", "v", 100, 10, 20⟩] Strategy.avalanche 0).months ∧
      ((calculatePayoff [⟨"v", "v", 100, 10, 20⟩] Strategy.avalanche
          0).debtPayoffOrder.map PayoffEntry.id).Nodup ∧
      (∀ p ∈ (calculatePayoff [⟨"v", "v", 100, 10, 20⟩] Strategy.avalanche
          0).debtPayoffOrder,
        1 ≤ p.payoffMonth ∧
        lookupBal p.id (stateAt 0 ((sortDebts Strategy.avalanche
          [⟨"v", "v", 100, 10, 20⟩]).map fun d => (d, d.balance)) p.payoffMonth) ≤ 1/100 ∧
        ∀ m < p.payoffMonth, 1/100 < lookupBal p.id (stateAt 0
          ((sortDebts Strategy.avalanche
            [⟨"v", "v", 100, 10, 20⟩]).map fun d => (d, d.balance)) m)) ∧
      List.Chain' (fun p q => p.payoffMonth ≤ q.payoffMonth)
        (calculatePayoff [⟨"v", "v", 100, 10, 20⟩] Strategy.avalanche
          0).debtPayoffOrder) :=
  ⟨⟨by decide, by norm_num, by decide⟩,
    C10_result_structure [⟨"v", "v", 100, 10, 20⟩] Strategy.avalanche 0
      (by decide) (by norm_num) (by decide)⟩

/-- Witness for C1 at a concrete single-debt input. -/
theorem C1_payoff_months_le_360_witness :
    (([⟨"a", "a", 100, 10, 20⟩] : List DebtInput) ≠ [] ∧
      ValidDebts [⟨"a", "a", 100, 10, 20⟩] ∧ (0 : ℚ) ≤ 5) ∧
    (calculatePayoff [⟨"a", "a", 100, 10, 20⟩] Strategy.avalanche 5).months ≤ 360 :=
  ⟨⟨by decide, by decide, by norm_num⟩,
    C1_payoff_months_le_360 [⟨"a", "a", 100, 10, 20⟩] Strategy.avalanche 5
      (by decide) (by decide) (by norm_num)⟩

end DebtPayoff

namespace FinancialHealth

/-- C6: `calculateHealthScore` is total (a Lean function, never throwing, and
over `ℚ` no NaN arises: every division is guarded); when `monthlyIncome ≤ 0`
the savings-rate component has value 0 and (after the 0–20 clamp and rounding)
score 0, and the debt-to-income component has the sentinel value 100; when
`monthlyExpenses ≤ 0` the emergency-fund months value is 0. -/
theorem C6_sentinel_scores (input : HealthScoreInput) :
    (input.monthlyIncome ≤ 0 →
      (calculateHealthScore input).components.savingsRate.value = 0 ∧
      (calculateHealthScore input).components.savingsRate.score = 0 ∧
      (calculateHealthScore input).components.debtToIncome.value = 100) ∧
    (input.monthlyExpenses ≤ 0 →
      (calculateHealthScore input).components.emergencyFund.value = 0) := by
  constructor
  · intro h
    have h' : ¬ 0 < input.monthlyIncome := not_lt.mpr h
    refine ⟨?_, ?_, ?_⟩ <;>
      simp [calculateHealthScore, h', jsRound] <;> norm_num
  · intro h
    have h' : ¬ 0 < input.monthlyExpenses := not_lt.mpr h
    simp [calculateHealthScore, h']

/-- Witness for C6 at a concrete input with non-positive income and
expenses. -/
theorem C6_sentinel_scores_witness :
    ((0 : ℚ) ≤ 0 ∧ (0 : ℚ) ≤ 0) ∧
    ((calculateHealthScore ⟨0, 0, 500, 0, 0, 0, 0⟩).components.savingsRate.value = 0 ∧
      (calculateHealthScore ⟨0, 0, 500, 0, 0, 0, 0⟩).components.savingsRate.score = 0 ∧
      (calculateHealthScore ⟨0, 0, 500, 0, 0, 0, 0⟩).components.debtToIncome.value = 100) ∧
    (calculateHealthScore ⟨0, 0, 500, 0, 0, 0, 0⟩).components.emergencyFund.value = 0 :=
  ⟨⟨le_refl 0, le_refl 0⟩,
    (C6_sentinel_scores ⟨0, 0, 500, 0, 0, 0, 0⟩).1 (le_refl 0),
    (C6_sentinel_scores ⟨0, 0, 500, 0, 0, 0, 0⟩).2 (le_refl 0)⟩

end FinancialHealth

namespace Projections

theorem getPercentile_ordered (runs : List (List ℚ)) (y : ℕ)
    (h50 : runs.length = 50) :
    getPercentile runs y (1/10) ≤ getPercentile runs y (1/2) ∧
    getPercentile runs y (1/2) ≤ getPercentile runs y (9/10) := by
  have hsorted := sortBy_sorted (runs.map fun r => r.getD y 0)
  have hlen : (sortBy (fun a b => decide (a ≤ b))
      (runs.map fun r => r.getD y 0)).length = 50 := by
    rw [sortBy_length, List.length_map, h50]
  unfold getPercentile
  simp only [hlen]
  constructor
  · refine sorted_getD_mono _ hsorted ?_ ?_
    · norm_num <;> decide
    · rw [hlen]; norm_num <;> decide
  · refine sorted_getD_mono _ hsorted ?_ ?_
    · norm_num <;> decide
    · rw [hlen]; norm_num <;> decide

theorem profileRuns_length (rnd : ℕ → ℚ) (years : ℕ) (cb ma : ℚ)
    (profile : ℕ) (avgReturn stdDev : ℚ) :
    (profileRuns rnd years cb ma profile avgReturn stdDev).length = 50 := by
  simp [profileRuns]

/-- C8: for every random draw stream, every years ∈ [1,50], initial balance
and monthly contribution, each `MonteCarloYearEntry` produced by the
investment-growth Monte Carlo satisfies `low ≤ mid ≤ high` in each of the
conservative, moderate and aggressive profiles. -/
theorem C8_percentile_ordering (rnd : ℕ → ℚ) (years : ℕ) (cb ma : ℚ)
    (h1 : 1 ≤ years) (h2 : years ≤ 50) :
    ∀ e ∈ monteCarlo rnd years cb ma,
      (e.conservative.low ≤ e.conservative.mid ∧
        e.conservative.mid ≤ e.conservative.high) ∧
      (e.moderate.low ≤ e.moderate.mid ∧ e.moderate.mid ≤ e.moderate.high) ∧
      (e.aggressive.low ≤ e.aggressive.mid ∧
        e.aggressive.mid ≤ e.aggressive.high) := by
  intro e he
  unfold monteCarlo at he
  simp only [List.mem_map, List.mem_range] at he
  obtain ⟨y, -, rfl⟩ := he
  dsimp only
  exact ⟨getPercentile_ordered (profileRuns rnd years cb ma 0 (5/100) (8/100)) y
      (profileRuns_length rnd years cb ma 0 (5/100) (8/100)),
    getPercentile_ordered (profileRuns rnd years cb ma 1 (7/100) (12/100)) y
      (profileRuns_length rnd years cb ma 1 (7/100) (12/100)),
    getPercentile_ordered (profileRuns rnd years cb ma 2 (10/100) (18/100)) y
      (profileRuns_length rnd years cb ma 2 (10/100) (18/100))⟩

/-- Witness for C8: one year, zero balance and contribution, constant draw
stream; the entry is the head of the produced Monte Carlo list. -/
theorem C8_percentile_ordering_witness :
    ((1 : ℕ) ≤ 1 ∧ (1 : ℕ) ≤ 50 ∧
      (monteCarlo (fun _ => 1/2) 1 0 0).headI ∈ monteCarlo (fun _ => 1/2) 1 0 0) ∧
    ((monteCarlo (fun _ => 1/2) 1 0 0).headI.conservative.low ≤
        (monteCarlo (fun _ => 1/2) 1 0 0).headI.conservative.mid ∧
      (monteCarlo (fun _ => 1/2) 1 0 0).headI.conservative.mid ≤
        (monteCarlo (fun _ => 1/2) 1 0 0).headI.conservative.high) := by
  have hne : monteCarlo (fun _ => 1/2) 1 0 0 ≠ [] := by
    unfold monteCarlo
    simp
  have hmem : (monteCarlo (fun _ => 1/2) 1 0 0).headI ∈ monteCarlo (fun _ => 1/2) 1 0 0 := by
    cases h : monteCarlo (fun _ => 1/2) 1 0 0 with
    | nil => exact absurd h hne
    | cons a l => simp
  exact ⟨⟨le_refl 1, by norm_num, hmem⟩,
    (C8_percentile_ordering (fun _ => 1/2) 1 0 0 (le_refl 1) (by norm_num)
      (monteCarlo (fun _ => 1/2) 1 0 0).headI hmem).1⟩

theorem detMonths_eq (mr ma : ℚ) (m : ℕ) (b tc : ℚ) :
    detMonths mr ma m (b, tc) = ((specMonthlyStep mr ma)^[m] b, tc + (m : ℚ) * ma) := by
  induction m generalizing b tc with
  | zero => simp [detMonths]
  | succ m ih =>
    rw [detMonths, ih]
    have hb : b * (1 + mr) + ma = specMonthlyStep mr ma b := rfl
    rw [hb, ← Function.iterate_succ_apply]
    refine congrArg₂ Prod.mk rfl ?_
    push_cast
    ring

theorem projGo_getElem (mr ma : ℚ) (n : ℕ) :
    ∀ (y0 : ℕ) (b tc : ℚ) (k : ℕ), k < n →
    (projGo mr ma n y0 (b, tc))[k]? = some
      { year := y0 + k
        balance := round2 ((specMonthlyStep mr ma)^[12 * (k + 1)] b)
        contributions := round2 (tc + ((12 * (k + 1) : ℕ) : ℚ) * ma)
        growth := round2 ((specMonthlyStep mr ma)^[12 * (k + 1)] b -
          (tc + ((12 * (k + 1) : ℕ) : ℚ) * ma)) } := by
  induction n with
  | zero => omega
  | succ n ih =>
    intro y0 b tc k hk
    rw [projGo, detMonths_eq]
    cases k with
    | zero =>
      simp only [List.getElem?_cons_zero, Option.some.injEq]
      refine congrArg₂ _ rfl ?_
      norm_num
    | succ k =>
      rw [List.getElem?_cons_succ, ih (y0 + 1) _ _ k (by omega)]
      refine congrArg _ ?_
      have h12 : 12 * (k + 1 + 1) = 12 * (k + 1) + 12 := by ring
      rw [h12, Function.iterate_add_apply]
      have hy : y0 + 1 + k = y0 + (k + 1) := by omega
      rw [hy]
      have hc : tc + ((12 : ℕ) : ℚ) * ma + ((12 * (k + 1) : ℕ) : ℚ) * ma =
          tc + ((12 * (k + 1 + 1) : ℕ) : ℚ) * ma := by
        push_cast
        ring
      rw [hc, h12]

/-- C9: for every `years ∈ [1,50]`, `annualReturnPercent ∈ [-50,100]`,
`monthlyContribution ≥ 0` and `initialBalance ≥ 0`, the deterministic
projection applies `balance = balance*(1 + annualReturnPercent/100/12) +
contribution` twelve times per year, and the `y`-th yearly entry records
`contributions = initialBalance + 12*year*monthlyContribution` (the running
sum including the initial balance) and `growth = balance - contributions`,
all rounded to cents. -/
theorem C9_deterministic_projection (years : ℕ) (annualReturnPct monthlyAdd currentBalance : ℚ)
    (h1 : 1 ≤ years) (h2 : years ≤ 50) (hr1 : -50 ≤ annualReturnPct)
    (hr2 : annualReturnPct ≤ 100) (hma : 0 ≤ monthlyAdd) (hcb : 0 ≤ currentBalance)
    (y : ℕ) (hy : y < years) :
    (investmentProjection years annualReturnPct monthlyAdd currentBalance)[y]? = some
      { year := y + 1
        balance := round2
          ((specMonthlyStep (annualReturnPct / 100 / 12) monthlyAdd)^[12 * (y + 1)] currentBalance)
        contributions := round2 (currentBalance + ((12 * (y + 1) : ℕ) : ℚ) * monthlyAdd)
        growth := round2
          ((specMonthlyStep (annualReturnPct / 100 / 12) monthlyAdd)^[12 * (y + 1)] currentBalance -
            (currentBalance + ((12 * (y + 1) : ℕ) : ℚ) * monthlyAdd)) } := by
  unfold investmentProjection
  rw [projGo_getElem (annualReturnPct / 100 / 12) monthlyAdd years 1 currentBalance currentBalance
    y hy]
  rw [Nat.add_comm 1 y]

/-- Witness for C9 at a concrete input: one year, zero return, no
contribution. -/
theorem C9_deterministic_projection_witness :
    ((1 : ℕ) ≤ 1 ∧ (1 : ℕ) ≤ 50 ∧ (-50 : ℚ) ≤ 0 ∧ (0 : ℚ) ≤ 100 ∧ (0 : ℚ) ≤ 0 ∧
      (0 : ℚ) ≤ 100 ∧ (0 : ℕ) < 1) ∧
    (investmentProjection 1 0 0 100)[0]? = some
      { year := 1
        balance := round2 ((specMonthlyStep (0 / 100 / 12) 0)^[12 * (0 + 1)] 100)
        contributions := round2 (100 + ((12 * (0 + 1) : ℕ) : ℚ) * 0)
        growth := round2 ((specMonthlyStep (0 / 100 / 12) 0)^[12 * (0 + 1)] 100 -
          (100 + ((12 * (0 + 1) : ℕ) : ℚ) * 0)) } :=
  ⟨⟨le_refl 1, by norm_num, by norm_num, by norm_num, le_refl 0, by norm_num, by norm_num⟩,
    C9_deterministic_projection 1 0 0 100 (le_refl 1) (by norm_num) (by norm_num)
      (by norm_num) (le_refl 0) (by norm_num) 0 (by norm_num)⟩

end Projections

namespace FinancialHealth

theorem runningBalanceFrom_zero (dayOfMonthAt : ℕ → ℕ) (b : ℚ)
    (inc exps : List RecurringFlow) (d0 : ℕ) :
    runningBalanceFrom dayOfMonthAt b inc exps d0 0 = b := rfl

theorem runningBalanceFrom_step (dayOfMonthAt : ℕ → ℕ) (b : ℚ)
    (inc exps : List RecurringFlow) (d0 m : ℕ) :
    runningBalanceFrom dayOfMonthAt b inc exps d0 (m + 1) =
      runningBalanceFrom dayOfMonthAt b inc exps d0 m +
        incomeOn dayOfMonthAt inc (d0 + m) - expenseOn dayOfMonthAt exps (d0 + m) := rfl

theorem runningBalance_step (dayOfMonthAt : ℕ → ℕ) (c : ℚ)
    (inc exps : List RecurringFlow) (d : ℕ) :
    runningBalance dayOfMonthAt c inc exps (d + 1) =
      runningBalance dayOfMonthAt c inc exps d +
        incomeOn dayOfMonthAt inc d - expenseOn dayOfMonthAt exps d := rfl

theorem runningBalanceFrom_succ (dayOfMonthAt : ℕ → ℕ) (b : ℚ)
    (inc exps : List RecurringFlow) (d0 m : ℕ) :
    runningBalanceFrom dayOfMonthAt b inc exps d0 (m + 1) =
      runningBalanceFrom dayOfMonthAt
        (b + incomeOn dayOfMonthAt inc d0 - expenseOn dayOfMonthAt exps d0)
        inc exps (d0 + 1) m := by
  induction m with
  | zero =>
    rw [runningBalanceFrom_step, runningBalanceFrom_zero, runningBalanceFrom_zero,
      Nat.add_zero]
  | succ m ih =>
    rw [runningBalanceFrom_step, ih,
      runningBalanceFrom_step dayOfMonthAt _ inc exps (d0 + 1) m]
    have h : d0 + (m + 1) = d0 + 1 + m := by omega
    rw [h]

theorem runningBalance_eq_from (dayOfMonthAt : ℕ → ℕ) (c : ℚ)
    (inc exps : List RecurringFlow) (m : ℕ) :
    runningBalance dayOfMonthAt c inc exps m =
      runningBalanceFrom dayOfMonthAt c inc exps 0 m := by
  induction m with
  | zero => rfl
  | succ m ih => rw [runningBalance_step, runningBalanceFrom_step, ih, Nat.zero_add]

theorem forecastGo_getElem (dayOfMonthAt : ℕ → ℕ) (inc exps : List RecurringFlow) (n : ℕ) :
    ∀ (d0 : ℕ) (b : ℚ) (k : ℕ), k < n →
    (forecastGo dayOfMonthAt inc exps n d0 b)[k]? = some
      { date := d0 + k
        projectedBalance := round2 (runningBalanceFrom dayOfMonthAt b inc exps d0 (k + 1))
        income := incomeOn dayOfMonthAt inc (d0 + k)
        expenses := expenseOn dayOfMonthAt exps (d0 + k)
        label := labelOn dayOfMonthAt inc exps (d0 + k) } := by
  induction n with
  | zero => omega
  | succ n ih =>
    intro d0 b k hk
    rw [forecastGo]
    cases k with
    | zero =>
      simp only [List.getElem?_cons_zero, Option.some.injEq, Nat.add_zero,
        runningBalanceFrom_step, runningBalanceFrom_zero, incomeOn, expenseOn, labelOn]
    | succ k =>
      rw [List.getElem?_cons_succ, ih (d0 + 1) _ k (by omega)]
      rw [runningBalanceFrom_succ dayOfMonthAt b inc exps d0 (k + 1)]
      have h : d0 + 1 + k = d0 + (k + 1) := by omega
      rw [h]
      rfl

/-- C7: each entry of `forecastCashFlow` has `projectedBalance` equal, rounded
to cents, to the previous day's running balance plus the matched incomes minus
the matched absolute expenses; its `income`/`expenses` fields are those sums;
the `label` concatenates the matched descriptions with `+`/`-` markers and is
`none` on a day with no matching flow, on which the running balance is also
unchanged from the previous day. -/
theorem C7_forecast_characterization (dayOfMonthAt : ℕ → ℕ) (c : ℚ)
    (inc exps : List RecurringFlow) (days : ℕ) (h1 : 1 ≤ days) (h2 : days ≤ 365)
    (d : ℕ) (hd : d < days) :
    ((forecastCashFlow dayOfMonthAt c inc exps days)[d]? = some
      { date := d
        projectedBalance := round2 (runningBalance dayOfMonthAt c inc exps d +
          incomeOn dayOfMonthAt inc d - expenseOn dayOfMonthAt exps d)
        income := incomeOn dayOfMonthAt inc d
        expenses := expenseOn dayOfMonthAt exps d
        label := labelOn dayOfMonthAt inc exps d }) ∧
    ((inc.filter fun f => f.dayOfMonth = dayOfMonthAt d) = [] ∧
      (exps.filter fun f => f.dayOfMonth = dayOfMonthAt d) = [] →
      labelOn dayOfMonthAt inc exps d = none ∧
        runningBalance dayOfMonthAt c inc exps (d + 1) =
          runningBalance dayOfMonthAt c inc exps d) := by
  constructor
  · unfold forecastCashFlow
    rw [forecastGo_getElem dayOfMonthAt inc exps days 0 c d hd,
      runningBalance_eq_from, runningBalanceFrom_step, Nat.zero_add]
  · rintro ⟨hi, he⟩
    refine ⟨?_, ?_⟩
    · simp [labelOn, hi, he]
    · rw [runningBalance_step]
      simp [incomeOn, expenseOn, hi, he]

/-- Witness for C7: the spec's concrete scenario 4 (balance 1000, one income
of 2000 on day 1, one expense of −500 on day 15, 31 days), at day 0, with the
calendar starting on day-of-month 1. -/
theorem C7_forecast_characterization_witness :
    ((1 : ℕ) ≤ 31 ∧ (31 : ℕ) ≤ 365 ∧ (0 : ℕ) < 31) ∧
    (forecastCashFlow (fun d => d + 1) 1000 [⟨2000, 1, "Pay"⟩] [⟨-500, 15, "Rent"⟩] 31)[0]? =
      some
      { date := 0
        projectedBalance := round2
          (runningBalance (fun d => d + 1) 1000 [⟨2000, 1, "Pay"⟩] [⟨-500, 15, "Rent"⟩] 0 +
            incomeOn (fun d => d + 1) [⟨2000, 1, "Pay"⟩] 0 -
            expenseOn (fun d => d + 1) [⟨-500, 15, "Rent"⟩] 0)
        income := incomeOn (fun d => d + 1) [⟨2000, 1, "Pay"⟩] 0
        expenses := expenseOn (fun d => d + 1) [⟨-500, 15, "Rent"⟩] 0
        label := labelOn (fun d => d + 1) [⟨2000, 1, "Pay"⟩] [⟨-500, 15, "Rent"⟩] 0 } :=
  ⟨⟨by norm_num, by norm_num, by norm_num⟩,
    (C7_forecast_characterization (fun d => d + 1) 1000 [⟨2000, 1, "Pay"⟩]
      [⟨-500, 15, "Rent"⟩] 31 (by norm_num) (by norm_num) 0 (by norm_num)).1⟩

end FinancialHealth

end WealthWatch
